import Mathlib

/-!
Shallow embedding of the art-trace per-line lexer/parser (`src/trace-parser.ts`)
and of the message sorter sample (`samples/sortOnReceiveTime.ts`).

Strings are modelled as `List Char`; the scanner, the grammar productions and
the sorter are translated function by function from the TypeScript source.
`JSON.parse` is modelled by an exact recursive-descent JSON parser whose
numbers are exact rationals (the traces carry integral nanosecond timestamps).
The scanner's number rule stores what `parseInt` produces — a nonnegative
integral IEEE-754 double, rounded half-to-even at 53 significant bits, or
`Infinity` on overflow — and number rendering follows the ECMAScript
`Number.prototype.toString` shortest-representation algorithm.
-/

namespace ArtTrace

/-- Value carried by a scanner token: the rule either keeps the matched text
(or a supplied string) or stores a parsed number — a JavaScript number, i.e.
an IEEE-754 double. The number rule's `parseInt` on a digit run always yields
a nonnegative integral double or `Infinity`, so the finite case carries the
double's exact integer value and `vinf` is the overflow to `Infinity`. -/
inductive TokenValue where
  | vstr (s : List Char)
  | vnum (n : Nat)
  | vinf
deriving DecidableEq

/-- A scanner token: `type` names the rule that produced it, `text` is the
matched source text, `value` the accepted value. Line numbers are stamped
onto tokens by `parseLine` purely for downstream diagnostics and are never
read back by the code modelled here, so they are omitted. -/
structure Token where
  type : List Char
  text : List Char
  value : TokenValue
deriving DecidableEq

/-- The end-of-input token emitted after the last scanned token. -/
def eofToken : Token := ⟨"EOF".toList, [], .vstr []⟩

def isNameStart (c : Char) : Bool :=
  ('a' ≤ c && c ≤ 'z') || ('A' ≤ c && c ≤ 'Z') || c == '_'

def isNameChar (c : Char) : Bool :=
  isNameStart c || ('0' ≤ c && c ≤ '9')

def isDigitCh (c : Char) : Bool := '0' ≤ c && c ≤ '9'

def isHexLower (c : Char) : Bool := isDigitCh c || ('a' ≤ c && c ≤ 'f')

/-- The characters of the whitespace rule `[ \t\r\n]+`. -/
def isWsCh (c : Char) : Bool := c == ' ' || c == '\t' || c == '\r' || c == '\n'

/-- Characters matched by the regular-expression dot (everything except the
line terminators). -/
def isDotCh (c : Char) : Bool :=
  !(c == '\n' || c == '\r' || c == '\u2028' || c == '\u2029')

/-- Characters matched by `[^\r\n]` inside the string rule. -/
def notCRLF (c : Char) : Bool := !(c == '\r' || c == '\n')

def digitsToNat (ds : List Char) : Nat :=
  ds.foldl (fun a c => a * 10 + (c.toNat - '0'.toNat)) 0

/-- Number of binary digits of `n` (`log2 n + 1` for positive `n`), with a
structural fuel so it evaluates by reduction. The fuel covers every finite
double; an input at or above `2^1100` gets a too-small answer, which below
only widens the computed value and still lands in the `Infinity` case. -/
def bitLenGo : Nat → Nat → Nat
  | 0, _ => 0
  | fuel + 1, n => if n == 0 then 0 else bitLenGo fuel (n / 2) + 1

def bitLen (n : Nat) : Nat := bitLenGo 1100 n

/-- Rounding a nonnegative integer to the nearest IEEE-754 double (round half
to even at 53 significant bits); `none` is the overflow to `Infinity` (a
rounded magnitude of `2^1024` or more). ECMAScript's `parseInt` on a decimal
digit run produces exactly this number value. -/
def roundToDouble (n : Nat) : Option Nat :=
  if n < 2 ^ 53 then some n
  else
    let e := bitLen n - 53
    let p := 2 ^ e
    let q := n / p
    let r := n % p
    let q2 :=
      if p < 2 * r then q + 1
      else if 2 * r < p then q
      else if q % 2 == 0 then q else q + 1
    let v := q2 * p
    if v < 2 ^ 1024 then some v else none

/-- The largest `t` at most `fuel` such that a multiple of `10^t` lies in
`[lo, hi]` (`t = 0` always qualifies). -/
def maxPow10In (lo hi : Nat) : Nat → Nat
  | 0 => 0
  | t + 1 =>
    if ((lo + 10 ^ (t + 1) - 1) / 10 ^ (t + 1)) * 10 ^ (t + 1) ≤ hi then t + 1
    else maxPow10In lo hi t

/-- The multiple of `10^t` in `[lo, hi]` closest to `v` (assuming one exists
and `lo ≤ v ≤ hi`), breaking an exact tie toward the even multiplier as the
ECMAScript string conversion does. -/
def closestMult (lo hi v t : Nat) : Nat :=
  let p := 10 ^ t
  let cLo := ((lo + p - 1) / p) * p
  let cHi := (hi / p) * p
  let below := max cLo ((v / p) * p)
  let above := min cHi (below + p)
  if v - below < above - v then below
  else if above - v < v - below then above
  else if (below / p) % 2 == 0 then below else above

/-- `Number.prototype.toString` (radix 10) on a nonnegative integral double
value, the ECMAScript shortest-representation algorithm specialized to
integers. Below `2^53` adjacent doubles are less than one apart, so the only
decimal numeral converting back to the value is its exact digit string. From
`2^53` the rounding interval of the value spans several integers (endpoints
included exactly when the 53-bit mantissa is even, by round-half-to-even) and
the numeral with the fewest significant digits in it is printed — ties toward
the value, then to the even digit string — in plain notation below `10^21`
and in exponential notation from `10^21` on. -/
def jsNumberToString (v : Nat) : List Char :=
  if v < 2 ^ 53 then Nat.toDigits 10 v
  else
    let e := bitLen v - 53
    let q := v / 2 ^ e
    let gapUp := 2 ^ e
    let gapDown := if q == 2 ^ 52 then 2 ^ e / 2 else 2 ^ e
    let lo4 := 4 * v - 2 * gapDown
    let hi4 := 4 * v + 2 * gapUp
    let lo := if q % 2 == 0 then (lo4 + 3) / 4 else lo4 / 4 + 1
    let hi := if q % 2 == 0 then hi4 / 4 else (hi4 - 1) / 4
    let t := maxPow10In lo hi 330
    let c := closestMult lo hi v t
    if c < 10 ^ 21 then Nat.toDigits 10 c
    else
      let s := Nat.toDigits 10 (c / 10 ^ t)
      let exp := (Nat.toDigits 10 c).length - 1
      (match s with
       | [] => []
       | [d] => [d]
       | d :: ds => d :: '.' :: ds) ++ 'e' :: '+' :: Nat.toDigits 10 exp

/-- Index of the last occurrence of `c`, as `String.lastIndexOf` computes it. -/
def lastIndexOf (c : Char) : List Char → Option Nat
  | [] => none
  | x :: xs =>
    match lastIndexOf c xs with
    | some j => some (j + 1)
    | none => if x == c then some 0 else none

/-- `replace(/\\"/g, "\"")`: resolve the escaped quotes of a string token. -/
def jsUnescapeQuotes : List Char → List Char
  | '\\' :: '"' :: t => '"' :: jsUnescapeQuotes t
  | c :: t => c :: jsUnescapeQuotes t
  | [] => []

/-- Keyword rule `/instance|note/` (tried first, before the name rule). -/
def matchKeyword (l : List Char) : Option (Token × Nat) :=
  if ("instance".toList).isPrefixOf l then
    some (⟨"keyword".toList, "instance".toList, .vstr "instance".toList⟩, 8)
  else if ("note".toList).isPrefixOf l then
    some (⟨"keyword".toList, "note".toList, .vstr "note".toList⟩, 4)
  else none

/-- Name rule `/[a-zA-Z_][a-zA-Z0-9_]*/`. -/
def matchName (l : List Char) : Option (Token × Nat) :=
  match l with
  | c :: t =>
    if isNameStart c then
      let run := t.takeWhile isNameChar
      some (⟨"name".toList, c :: run, .vstr (c :: run)⟩, 1 + run.length)
    else none
  | [] => none

/-- String rule `/"((?:\\"|[^\r\n])*)"/`: greedy, so the token closes at the
last quote of the line-terminator-free prefix; the value has its escaped
quotes resolved. -/
def matchStr (l : List Char) : Option (Token × Nat) :=
  match l with
  | '"' :: t =>
    let pfx := t.takeWhile notCRLF
    match lastIndexOf '"' pfx with
    | some j =>
      some (⟨"string".toList, '"' :: (pfx.take j ++ ['"']),
             .vstr (jsUnescapeQuotes (pfx.take j))⟩, j + 2)
    | none => none
  | _ => none

/-- Line-comment rule `/\/\/.*?$/` (ignored, not emitted). -/
def matchComment (l : List Char) : Option Nat :=
  if ("//".toList).isPrefixOf l then
    if (l.drop 2).all isDotCh then some l.length else none
  else none

/-- Whitespace rule `/[ \t\r\n]+/` (ignored, not emitted). -/
def matchWs (l : List Char) : Option Nat :=
  let run := l.takeWhile isWsCh
  if run.isEmpty then none else some run.length

/-- Address rule `/0x([0-9a-f])+/`. -/
def matchAddress (l : List Char) : Option (Token × Nat) :=
  match l with
  | '0' :: 'x' :: t =>
    let run := t.takeWhile isHexLower
    if run.isEmpty then none
    else some (⟨"address".toList, '0' :: 'x' :: run, .vstr ('0' :: 'x' :: run)⟩,
               2 + run.length)
  | _ => none

/-- Number rule `/[0-9]+/` with `parseInt` as the value: the digit run's
integer rounded to the nearest double, `Infinity` on overflow. -/
def matchNumber (l : List Char) : Option (Token × Nat) :=
  let run := l.takeWhile isDigitCh
  if run.isEmpty then none
  else
    some (⟨"number".toList, run,
           match roundToDouble (digitsToNat run) with
           | some v => .vnum v
           | none => .vinf⟩, run.length)

/-- Arrow rule `/\-\>/`. -/
def matchArrow (l : List Char) : Option (Token × Nat) :=
  match l with
  | '-' :: '>' :: _ => some (⟨"arrow".toList, "->".toList, .vstr "->".toList⟩, 2)
  | _ => none

/-- A single-character rule (dot, square brackets, colon). -/
def matchSingle (c : Char) (ty : List Char) (l : List Char) : Option (Token × Nat) :=
  match l with
  | x :: _ => if x == c then some (⟨ty, [c], .vstr [c]⟩, 1) else none
  | [] => none

/-- Event-data rule `/\(.*$/`: consumes the rest of the line; the value is the
text up to the last closing parenthesis, or everything after the opening one
when no closing parenthesis exists. -/
def matchEventData (l : List Char) : Option (Token × Nat) :=
  match l with
  | '(' :: t =>
    if t.all isDotCh then
      match lastIndexOf ')' t with
      | some j => some (⟨"event-with-data".toList, '(' :: t, .vstr (t.take j)⟩, 1 + t.length)
      | none => some (⟨"event-with-data".toList, '(' :: t, .vstr t⟩, 1 + t.length)
    else none
  | _ => none

/-- Try the scanner rules in their registration order; the first match wins.
`none` in the first component means the match is ignored (comment, whitespace). -/
def nextMunch (l : List Char) : Option (Option Token × Nat) :=
  match matchKeyword l with
  | some (t, n) => some (some t, n)
  | none =>
  match matchName l with
  | some (t, n) => some (some t, n)
  | none =>
  match matchStr l with
  | some (t, n) => some (some t, n)
  | none =>
  match matchComment l with
  | some n => some (none, n)
  | none =>
  match matchWs l with
  | some n => some (none, n)
  | none =>
  match matchAddress l with
  | some (t, n) => some (some t, n)
  | none =>
  match matchNumber l with
  | some (t, n) => some (some t, n)
  | none =>
  match matchArrow l with
  | some (t, n) => some (some t, n)
  | none =>
  match matchSingle '.' "dot".toList l with
  | some (t, n) => some (some t, n)
  | none =>
  match matchSingle '[' "open-square-bracket".toList l with
  | some (t, n) => some (some t, n)
  | none =>
  match matchSingle ']' "close-square-bracket".toList l with
  | some (t, n) => some (some t, n)
  | none =>
  match matchEventData l with
  | some (t, n) => some (some t, n)
  | none =>
  match matchSingle ':' "colon".toList l with
  | some (t, n) => some (some t, n)
  | none => none

/-- Scanner driver: `none` models a thrown `ParsingError` (a character run that
no rule matches); the fuel is only a structural-recursion device, every munch
consumes at least one character. -/
def scanGo : Nat → List Char → Option (List Token)
  | 0, _ => none
  | Nat.succ fuel, l =>
    match l with
    | [] => some [eofToken]
    | _ =>
      match nextMunch l with
      | none => none
      | some (tk, n) =>
        match scanGo fuel (l.drop n) with
        | none => none
        | some ts =>
          some (match tk with
                | some t => t :: ts
                | none => ts)

/-- `lexer.tokens()` for one line: the full token list, ending with EOF. -/
def scan (l : List Char) : Option (List Token) := scanGo (l.length + 1) l

/-- `Array.prototype.slice(s, e)`. -/
def jsSlice (s e : Nat) (l : List α) : List α := (l.drop s).take (e - s)

/-- `Token.isA` against one expected kind, a `kw:`-prefixed entry demanding the
keyword with that value. -/
def kindMatches (spec : List Char) (t : Token) : Bool :=
  if ("kw:".toList).isPrefixOf spec then
    t.type == "keyword".toList && t.value == .vstr (spec.drop 3)
  else t.type == spec

/-- The positional kind check of `matchTokens` from position `i`. -/
def checkKinds (tokens : List Token) (i : Nat) : List (List Char) → Bool
  | [] => true
  | spec :: rest =>
    match tokens.get? i with
    | some t => kindMatches spec t && checkKinds tokens (i + 1) rest
    | none => false

/-- `matchTokens(i, tokens, tokenKinds, onMatch)`: the state `s` stands for the
closure the callback mutates; the callback's `some false` is the "do not
consume" signal. Returns (matched?, new cursor, new state). -/
def matchTokens {σ : Type _} (i : Nat) (tokens : List Token)
    (tokenKinds : List (List Char)) (s : σ)
    (onMatch : List Token → σ → σ × Option Bool) : Bool × Nat × σ :=
  if tokens.length < i + tokenKinds.length then (false, i, s)
  else if checkKinds tokens i tokenKinds then
    let r := onMatch (jsSlice i (i + tokenKinds.length) tokens) s
    if r.2 == some false then (true, i, r.1) else (true, i + tokenKinds.length, r.1)
  else (false, i, s)

/-- A JSON value; numbers are exact decimal rationals. -/
inductive Json where
  | null
  | bool (b : Bool)
  | num (q : Rat)
  | str (s : List Char)
  | arr (elems : List Json)
  | obj (members : List (List Char × Json))

/-- Property lookup on a parsed object: `JSON.parse` lets the last duplicate
key win, which folding from the left reproduces. -/
def lookupLast (members : List (List Char × Json)) (key : List Char) : Option Json :=
  members.foldl (fun acc kv => if kv.1 == key then some kv.2 else acc) none

/-- Property access `j[key]`, defined (non-`undefined`) only on objects. -/
def Json.getField (j : Json) (key : List Char) : Option Json :=
  match j with
  | .obj members => lookupLast members key
  | _ => none

def jsonWsCh (c : Char) : Bool := c == ' ' || c == '\t' || c == '\n' || c == '\r'

def jsonSkipWs (l : List Char) : List Char := l.dropWhile jsonWsCh

def hexDigitVal (c : Char) : Option Nat :=
  let n := c.toNat
  if 48 ≤ n && n ≤ 57 then some (n - 48)
  else if 97 ≤ n && n ≤ 102 then some (n - 87)
  else if 65 ≤ n && n ≤ 70 then some (n - 55)
  else none

/-- JSON string body after the opening quote: decoded content and remainder
after the closing quote. Raw control characters and invalid escapes fail. -/
def jsonEscChar (e : Char) : Option Char :=
  if e == '"' then some '"'
  else if e == '\\' then some '\\'
  else if e == '/' then some '/'
  else if e == 'b' then some (Char.ofNat 8)
  else if e == 'f' then some (Char.ofNat 12)
  else if e == 'n' then some '\n'
  else if e == 'r' then some '\r'
  else if e == 't' then some '\t'
  else none

def jsonStringRest : List Char → Option (List Char × List Char)
  | [] => none
  | '"' :: t => some ([], t)
  | '\\' :: t =>
    match t with
    | [] => none
    | 'u' :: t2 =>
      match t2 with
      | a :: b :: c :: d :: t3 =>
        match hexDigitVal a, hexDigitVal b, hexDigitVal c, hexDigitVal d with
        | some x, some y, some z, some w =>
          match jsonStringRest t3 with
          | some (s, r) => some (Char.ofNat (((x * 16 + y) * 16 + z) * 16 + w) :: s, r)
          | none => none
        | _, _, _, _ => none
      | _ => none
    | e :: t2 =>
      match jsonEscChar e with
      | some c =>
        match jsonStringRest t2 with
        | some (s, r) => some (c :: s, r)
        | none => none
      | none => none
  | c :: t =>
    if c.toNat < 32 then none
    else
      match jsonStringRest t with
      | some (s, r) => some (c :: s, r)
      | none => none

/-- The optional decimal exponent clause `[eE][+-]?digits` of a number
literal: its signed value and the remainder, or no clause. -/
def jsonExpPart (l : List Char) : Option Int × List Char :=
  match l with
  | e :: t =>
    if e == 'e' || e == 'E' then
      match (match t with
             | '+' :: r => ((1 : Int), r)
             | '-' :: r => ((-1 : Int), r)
             | _ => ((1 : Int), t)) with
      | (sg, t2) =>
        match t2.takeWhile isDigitCh with
        | [] => (none, l)
        | run => (some (sg * (digitsToNat run : Int)), t2.drop run.length)
    else (none, l)
  | [] => (none, l)

/-- The optional fraction clause `.digits`: its digits and the remainder. -/
def jsonFracPart (l : List Char) : List Char × List Char :=
  match l with
  | '.' :: t =>
    match t.takeWhile isDigitCh with
    | [] => ([], l)
    | run => (run, t.drop run.length)
  | _ => ([], l)

/-- The exact rational `(-1)^neg * (ip + 0.fds) * 10^exp`, built with `mkRat`
so that it reduces by plain integer arithmetic. -/
def jsonMkNum (neg : Bool) (ip : Nat) (fds : List Char) (eo : Option Int) : Rat :=
  let f := fds.length
  let base : Int := ((ip * 10 ^ f + digitsToNat fds : Nat) : Int)
  let signed : Int := if neg then -base else base
  match eo with
  | some e =>
    if 0 ≤ e then mkRat (signed * (10 : Int) ^ e.toNat) (10 ^ f)
    else mkRat signed (10 ^ f * 10 ^ (-e).toNat)
  | none => mkRat signed (10 ^ f)

/-- JSON number literal at the head of the input, as an exact rational. -/
def jsonNumRest (l : List Char) : Option (Rat × List Char) :=
  match (match l with
         | '-' :: t => (true, t)
         | _ => (false, l)) with
  | (neg, l1) =>
    match (match l1 with
           | '0' :: t => some (0, t)
           | c :: _ =>
             if isDigitCh c then
               some (digitsToNat (l1.takeWhile isDigitCh),
                     l1.drop (l1.takeWhile isDigitCh).length)
             else none
           | [] => none : Option (Nat × List Char)) with
    | none => none
    | some (ip, l2) =>
      match jsonFracPart l2 with
      | (fds, l3) =>
        match jsonExpPart l3 with
        | (eo, l4) => some (jsonMkNum neg ip fds eo, l4)

mutual

/-- JSON value at the head of the input (whitespace-tolerant). -/
def jsonValueRest : Nat → List Char → Option (Json × List Char)
  | 0, _ => none
  | Nat.succ fuel, l0 =>
    let l := jsonSkipWs l0
    match l with
    | [] => none
    | c :: t =>
      if c == 'n' then
        (if ("null".toList).isPrefixOf l then some (.null, l.drop 4) else none)
      else if c == 't' then
        (if ("true".toList).isPrefixOf l then some (.bool true, l.drop 4) else none)
      else if c == 'f' then
        (if ("false".toList).isPrefixOf l then some (.bool false, l.drop 5) else none)
      else if c == '"' then
        match jsonStringRest t with
        | some (s, r) => some (.str s, r)
        | none => none
      else if c == '\x7b' then jsonObjRest fuel (jsonSkipWs t)
      else if c == '[' then jsonArrRest fuel (jsonSkipWs t)
      else
        match jsonNumRest l with
        | some (q, r) => some (.num q, r)
        | none => none

/-- Object body after the opening brace (whitespace already skipped). -/
def jsonObjRest : Nat → List Char → Option (Json × List Char)
  | 0, _ => none
  | Nat.succ fuel, l =>
    match l with
    | '\x7d' :: r => some (.obj [], r)
    | _ =>
      match jsonMembersRest fuel l with
      | some (ms, r) => some (.obj ms, r)
      | none => none

/-- One or more `"key": value` members, up to the closing brace. -/
def jsonMembersRest : Nat → List Char → Option (List (List Char × Json) × List Char)
  | 0, _ => none
  | Nat.succ fuel, l =>
    match l with
    | '"' :: t =>
      match jsonStringRest t with
      | some (k, r1) =>
        match jsonSkipWs r1 with
        | ':' :: r2 =>
          match jsonValueRest fuel r2 with
          | some (v, r3) =>
            match jsonSkipWs r3 with
            | ',' :: r4 =>
              match jsonMembersRest fuel (jsonSkipWs r4) with
              | some (ms, r5) => some ((k, v) :: ms, r5)
              | none => none
            | '\x7d' :: r4 => some ([(k, v)], r4)
            | _ => none
          | none => none
        | _ => none
      | none => none
    | _ => none

/-- Array body after the opening bracket (whitespace already skipped). -/
def jsonArrRest : Nat → List Char → Option (Json × List Char)
  | 0, _ => none
  | Nat.succ fuel, l =>
    match l with
    | ']' :: r => some (.arr [], r)
    | _ =>
      match jsonElemsRest fuel l with
      | some (es, r) => some (.arr es, r)
      | none => none

/-- One or more array elements, up to the closing bracket. -/
def jsonElemsRest : Nat → List Char → Option (List Json × List Char)
  | 0, _ => none
  | Nat.succ fuel, l =>
    match jsonValueRest fuel l with
    | some (v, r1) =>
      match jsonSkipWs r1 with
      | ',' :: r2 =>
        match jsonElemsRest fuel r2 with
        | some (es, r3) => some (v :: es, r3)
        | none => none
      | ']' :: r2 => some ([v], r2)
      | _ => none
    | none => none

end

/-- `JSON.parse`: a value covering the whole input (trailing whitespace aside),
`none` for a thrown `SyntaxError`. -/
def jsonParse (l : List Char) : Option Json :=
  match jsonValueRest (l.length + 1) l with
  | some (v, r) => if (jsonSkipWs r).isEmpty then some v else none
  | none => none

/-- AST node for an instance declaration. `dynamicType` is declared as a plain
`Token` in the source but left unassigned when the optional `: <name>` clause
is missing, i.e. it is `undefined` there; an `Option` captures that. -/
structure InstanceDecl where
  address : Token
  structureExpr : List Token
  dynamicType : Option Token

/-- The `data` field of a message occurrence: the parenthesized text parsed as
JSON when possible, otherwise the raw text kept verbatim. -/
inductive MsgData where
  | rawText (s : List Char)
  | structured (j : Json)

/-- AST node for a message occurrence; the optional ports and port indexes are
`undefined` unless their clauses matched. -/
structure MessageOccurrance where
  sender : Token
  receiver : Token
  senderName : List Char
  receiverName : List Char
  senderPort : Option Token
  receiverPort : Option Token
  senderPortIndex : Option TokenValue
  receiverPortIndex : Option TokenValue
  event : Token
  data : MsgData

/-- AST node for a note. -/
structure Note where
  text : List Char

/-- The result of `parseLine`: one of the three fact kinds. -/
inductive Fact where
  | inst (d : InstanceDecl)
  | msg (m : MessageOccurrance)
  | note (n : Note)

/-- Reading a token value where the code expects a string (`as string` casts
are runtime no-ops; a numeric value would be coerced at use, by the same
conversion `Number.prototype.toString` performs). -/
def TokenValue.asString : TokenValue → List Char
  | .vstr s => s
  | .vnum n => jsNumberToString n
  | .vinf => "Infinity".toList

/-- The structure-expression loop of `isInstanceDecl`: dot-separated names with
optional index specifiers, ended by peeking a colon or consuming EOF. Returns
the collected path tokens and the final cursor; the fuel is a structural
device, every iteration that recurses has consumed at least one token. -/
def instLoop : Nat → List Token → Nat → List Token → Option (List Token × Nat)
  | 0, _, _, _ => none
  | Nat.succ fuel, tokens, i, expr =>
    if i < tokens.length then
      match matchTokens i tokens ["name".toList] expr
          (fun matched s => (s ++ [matched.getD 0 eofToken], none)) with
      | (okn, i1, expr1) =>
        if !okn then none
        else
          match matchTokens i1 tokens ["dot".toList] () (fun _ s => (s, none)) with
          | (okd1, i2, _) =>
            if okd1 then instLoop fuel tokens i2 expr1
            else
              match matchTokens i1 tokens
                  ["open-square-bracket".toList, "number".toList,
                   "close-square-bracket".toList]
                  expr1 (fun matched s => (s ++ [matched.getD 1 eofToken], none)) with
              | (_, i3, expr2) =>
                match matchTokens i3 tokens ["dot".toList] () (fun _ s => (s, none)) with
                | (okd2, i4, _) =>
                  if okd2 then instLoop fuel tokens i4 expr2
                  else
                    match matchTokens i3 tokens ["colon".toList] ()
                        (fun _ s => (s, some false)) with
                    | (okc, i5, _) =>
                      if okc then some (expr2, i5)
                      else
                        match matchTokens i3 tokens ["EOF".toList] ()
                            (fun _ s => (s, none)) with
                        | (oke, i6, _) =>
                          if oke then some (expr2, i6)
                          else instLoop fuel tokens i6 expr2
    else some (expr, i)

/-- `isInstanceDecl`: `instance <address>` then the structure-expression loop,
then an optional `: <name>` dynamic type. -/
def isInstanceDecl (tokens : List Token) : Option InstanceDecl :=
  match matchTokens 0 tokens ["kw:instance".toList, "address".toList]
      (none : Option Token)
      (fun matched _s => (some (matched.getD 1 eofToken), none)) with
  | (ok0, i0, addr0) =>
    if !ok0 then none
    else
      match instLoop (tokens.length + 1) tokens i0 [] with
      | none => none
      | some (expr, i1) =>
        match matchTokens i1 tokens ["colon".toList, "name".toList]
            (none : Option Token)
            (fun matched _s => (some (matched.getD 1 eofToken), none)) with
        | (_, _, dyn) =>
          match addr0 with
          | some addr => some ⟨addr, expr, dyn⟩
          | none => none

/-- Mutable object built up by `isMessageOccurrance` before all mandatory
clauses are known to have matched. -/
structure MessageBuilder where
  sender : Option Token := none
  senderName : Option (List Char) := none
  receiver : Option Token := none
  receiverName : Option (List Char) := none
  senderPort : Option Token := none
  receiverPort : Option Token := none
  senderPortIndex : Option TokenValue := none
  receiverPortIndex : Option TokenValue := none
  event : Option Token := none
  data : Option MsgData := none

/-- `isMessageOccurrance`: sender address+name, optional port and index, arrow,
receiver address+name, optional port and index, then `: <event> (<data>)`;
the data text is tried as JSON and kept raw when that fails. -/
def isMessageOccurrance (tokens : List Token) : Option MessageOccurrance :=
  match matchTokens 0 tokens ["address".toList, "name".toList]
      ({} : MessageBuilder)
      (fun m s => ({s with sender := some (m.getD 0 eofToken),
                           senderName := some (m.getD 1 eofToken).text}, none)) with
  | (ok1, i1, b1) =>
    if !ok1 then none
    else
      match matchTokens i1 tokens ["dot".toList, "name".toList] b1
          (fun m s => ({s with senderPort := some (m.getD 1 eofToken)}, none)) with
      | (_, i2, b2) =>
        match matchTokens i2 tokens
            ["open-square-bracket".toList, "number".toList, "close-square-bracket".toList]
            b2 (fun m s => ({s with
                  senderPortIndex := some (m.getD 1 eofToken).value}, none)) with
        | (_, i3, b3) =>
          match matchTokens i3 tokens
              ["arrow".toList, "address".toList, "name".toList] b3
              (fun m s => ({s with receiver := some (m.getD 1 eofToken),
                                   receiverName := some (m.getD 2 eofToken).text}, none)) with
          | (ok4, i4, b4) =>
            if !ok4 then none
            else
              match matchTokens i4 tokens ["dot".toList, "name".toList] b4
                  (fun m s => ({s with receiverPort := some (m.getD 1 eofToken)}, none)) with
              | (_, i5, b5) =>
                match matchTokens i5 tokens
                    ["open-square-bracket".toList, "number".toList,
                     "close-square-bracket".toList] b5
                    (fun m s => ({s with
                      receiverPortIndex := some (m.getD 1 eofToken).value}, none)) with
                | (_, i6, b6) =>
                  match matchTokens i6 tokens
                      ["colon".toList, "name".toList, "event-with-data".toList] b6
                      (fun m s => ({s with
                        event := some (m.getD 1 eofToken),
                        data := some (match jsonParse (m.getD 2 eofToken).value.asString with
                                      | some j => .structured j
                                      | none => .rawText
                                          (m.getD 2 eofToken).value.asString)}, none)) with
                  | (ok7, _, b) =>
                    if !ok7 then none
                    else
                      match b.sender, b.senderName, b.receiver, b.receiverName,
                            b.event, b.data with
                      | some sd, some sn, some rc, some rn, some ev, some dt =>
                        some ⟨sd, rc, sn, rn, b.senderPort, b.receiverPort,
                              b.senderPortIndex, b.receiverPortIndex, ev, dt⟩
                      | _, _, _, _, _, _ => none

/-- `isNote`: mandatory `note "<string>"`; the text is the string token's
(already unescaped) value. -/
def isNote (tokens : List Token) : Option Note :=
  match matchTokens 0 tokens ["kw:note".toList, "string".toList] ([] : List Char)
      (fun matched _s => ((matched.getD 1 eofToken).value.asString, none)) with
  | (ok, _, text) => if ok then some ⟨text⟩ else none

/-- `parseLine`: scan, drop blank lines, then try the three productions in
order. Every failure path — a scanner error (the caught exception), a blank
line, or no production matching — returns the same `none`. The line number is
only stamped onto tokens for diagnostics in the source, so it is unused. -/
def parseLine (line : List Char) (_lineNumber : Nat) : Option Fact :=
  match scan line with
  | none => none
  | some tokens =>
    if tokens.length == 1 && (tokens.getD 0 eofToken).type == "EOF".toList then none
    else
      match isInstanceDecl tokens with
      | some d => some (.inst d)
      | none =>
        match isMessageOccurrance tokens with
        | some m => some (.msg m)
        | none =>
          match isNote tokens with
          | some n => some (.note n)
          | none => none

/-- `TraceParserUtils.structureExprToString`: names joined by dots, a
number-valued element rendered as `[<value.toString()>]` with no separator
(the stored value is the double `parseInt` produced, so its rendering is
`jsNumberToString`, and `Infinity` prints as such). -/
def structureExprToString (structureExpr : List Token) : List Char :=
  structureExpr.foldl
    (fun result token =>
      match token.value with
      | .vnum n => result ++ '[' :: jsNumberToString n ++ [']']
      | .vinf => result ++ '[' :: "Infinity".toList ++ [']']
      | .vstr _ => (if result.length > 0 then result ++ ['.'] else result) ++ token.text)
    []

/-- `TraceParserUtils.isTopCapsuleInstance`. -/
def isTopCapsuleInstance (astNode : InstanceDecl) : Bool :=
  astNode.structureExpr.length == 1 &&
    (astNode.structureExpr.getD 0 eofToken).text == "application".toList

/-- `TraceParserUtils.isSystemInstance`; `&&` short-circuits in the source, so
the absent dynamic type is dereferenced — a thrown `TypeError`, modelled as
`none` — only when the path renders as `Top`. -/
def isSystemInstance (astNode : InstanceDecl) : Option Bool :=
  if structureExprToString astNode.structureExpr == "Top".toList then
    match astNode.dynamicType with
    | some t => some (t.text == "RTSuperActor".toList)
    | none => none
  else some false

/-- `TraceParserUtils.isTimerInstance`; same short-circuit shape as
`isSystemInstance` with the `specials` path and the timer type. -/
def isTimerInstance (astNode : InstanceDecl) : Option Bool :=
  if structureExprToString astNode.structureExpr == "specials".toList then
    match astNode.dynamicType with
    | some t => some (t.text == "RTTimerActor".toList)
    | none => none
  else some false

/-- An entry of the sorter's buffer: the `time2_receive` value (any JSON value
the object carried there) together with the raw line text. -/
structure SortMessage where
  receiveTime : Json
  msg : List Char

/-- `astNode.data.time2_receive` in the sorter's first loop. The outer `none`
models the `TypeError` thrown by a property access on `null` (the only
JSON value the access throws on); the inner option is `undefined`-ness. -/
def time2ReceiveOf : MsgData → Option (Option Json)
  | .rawText _ => some none
  | .structured j =>
    match j with
    | .null => none
    | .obj members => some (lookupLast members "time2_receive".toList)
    | _ => some none

/-- First pass of `sortOnReceiveTime`: collect `(time2_receive, line)` for
every line parsing to a message occurrence whose data carries the field.
`none` models the thrown `TypeError` aborting the pass. -/
def collectMessages (i : Nat) : List (List Char) → Option (List SortMessage)
  | [] => some []
  | line :: rest =>
    let step : Option (List SortMessage) :=
      match parseLine line i with
      | some (.msg m) =>
        match time2ReceiveOf m.data with
        | none => none
        | some none => some []
        | some (some ts) => some [⟨ts, line⟩]
      | _ => some []
    match step with
    | none => none
    | some new =>
      match collectMessages (i + 1) rest with
      | none => none
      | some ms => some (new ++ ms)

/-- JS whitespace for `ToNumber` on strings (the common members). -/
def jsWsCh (c : Char) : Bool :=
  c == ' ' || c == '\t' || c == '\n' || c == '\r' || c == '\x0b' || c == '\x0c' ||
  c == '\u00a0' || c == '\ufeff' || c == '\u2028' || c == '\u2029'

def trimJsWs (l : List Char) : List Char :=
  ((l.dropWhile jsWsCh).reverse.dropWhile jsWsCh).reverse

/-- A JS decimal numeric literal covering the whole input:
`digits? ('.' digits?)? ([eE][+-]?digits)?` with at least one digit. -/
def jsDecimal (l : List Char) : Option Rat :=
  let ip := l.takeWhile isDigitCh
  let l1 := l.drop ip.length
  let fpart : List Char × List Char :=
    match l1 with
    | '.' :: t => (t.takeWhile isDigitCh, t.drop (t.takeWhile isDigitCh).length)
    | _ => ([], l1)
  let fds := fpart.1
  let l2 := fpart.2
  if ip.isEmpty && fds.isEmpty then none
  else
    let epart : Option Int × List Char :=
      match l2 with
      | e :: t =>
        if e == 'e' || e == 'E' then
          let se : Int × List Char :=
            match t with
            | '+' :: r => (1, r)
            | '-' :: r => (-1, r)
            | _ => (1, t)
          let run := se.2.takeWhile isDigitCh
          if run.isEmpty then (none, l2)
          else (some (se.1 * (digitsToNat run : Int)), se.2.drop run.length)
        else (none, l2)
      | [] => (none, l2)
    if epart.2.isEmpty then
      let mant : Rat := (digitsToNat ip : Rat) + (digitsToNat fds : Rat) / ((10 : Rat) ^ fds.length)
      some (match epart.1 with
            | some e => if 0 ≤ e then mant * (10 : Rat) ^ e.toNat else mant / ((10 : Rat) ^ (-e).toNat)
            | none => mant)
    else none

def digitsToNatBase (base : Nat) (vals : List Nat) : Nat :=
  vals.foldl (fun a v => a * base + v) 0

/-- A radix-prefixed integer literal (`0x`/`0o`/`0b`) covering the input. -/
def jsRadixLit (l : List Char) : Option Rat :=
  match l with
  | '0' :: p :: t =>
    if p == 'x' || p == 'X' then
      let vs := t.map hexDigitVal
      if t.isEmpty || vs.any (·.isNone) then none
      else some ((digitsToNatBase 16 (vs.map (·.getD 0)) : Nat) : Rat)
    else if p == 'o' || p == 'O' then
      if t.isEmpty || t.any (fun c => !('0' ≤ c && c ≤ '7')) then none
      else some ((digitsToNatBase 8 (t.map (fun c => c.toNat - '0'.toNat)) : Nat) : Rat)
    else if p == 'b' || p == 'B' then
      if t.isEmpty || t.any (fun c => !(c == '0' || c == '1')) then none
      else some ((digitsToNatBase 2 (t.map (fun c => c.toNat - '0'.toNat)) : Nat) : Rat)
    else none
  | _ => none

/-- `ToNumber` on a string: trimmed, empty is zero, an optional sign before a
decimal literal, or a radix literal. `Infinity` (unbounded) and anything else
(`NaN`) are both modelled as unordered `none`. -/
def jsStringToNumber (s : List Char) : Option Rat :=
  let t := trimJsWs s
  match t with
  | [] => some 0
  | '+' :: r => jsDecimal r
  | '-' :: r => (jsDecimal r).map Neg.neg
  | _ =>
    match jsRadixLit t with
    | some q => some q
    | none => jsDecimal t

/-- `ToNumber` on the JSON values a `time2_receive` field can hold. `none`
plays `NaN` (and the unmodelled coercions: `Infinity` strings and the joined
string form of a nonempty array), which the sort comparator treats as zero,
i.e. as equal. -/
def jsToNumber : Json → Option Rat
  | .num q => some q
  | .null => some 0
  | .bool b => some (if b then 1 else 0)
  | .str s => jsStringToNumber s
  | .arr [] => some 0
  | .arr (_ :: _) => none
  | .obj _ => none

/-- The sort comparator `(a, b) => a.receiveTime - b.receiveTime` under the
specification of `Array.prototype.sort`: a `NaN` comparator result counts as
zero, so unordered values compare equal. -/
def sortCompare (a b : SortMessage) : Ordering :=
  match jsToNumber a.receiveTime, jsToNumber b.receiveTime with
  | some x, some y => compare x y
  | _, _ => Ordering.eq

/-- Stable insertion: a new element goes after every existing one that does
not compare strictly greater. -/
def insertSorted (x : SortMessage) : List SortMessage → List SortMessage
  | [] => [x]
  | y :: ys => if sortCompare y x == Ordering.gt then x :: y :: ys else y :: insertSorted x ys

/-- `Array.prototype.sort` (stable since ES2019), as stable insertion sort. -/
def stableSortMessages (l : List SortMessage) : List SortMessage :=
  l.foldl (fun acc x => insertSorted x acc) []

/-- Whether the second pass treats the line as a message line
(`parseLine(line, i) instanceof MessageOccurrance`; the line counter does not
influence the result). -/
def isMessageLine (line : List Char) : Bool :=
  match parseLine line 0 with
  | some (.msg _) => true
  | _ => false

/-- The inner scan of the second pass: the first index at or after the cursor
whose buffered raw line equals `line`. -/
def findMatchGo (line : List Char) : List SortMessage → Nat → Option Nat
  | [], _ => none
  | m :: rest, idx => if m.msg == line then some idx else findMatchGo line rest (idx + 1)

def findMatchFrom (sorted : List SortMessage) (startIndex : Nat) (line : List Char) : Option Nat :=
  findMatchGo line (sorted.drop startIndex) startIndex

/-- Second pass of `sortOnReceiveTime`: a non-message line is pushed as is; a
message line found in the sorted buffer at or after the cursor pushes the
whole slice from the cursor through the match and advances the cursor; a
message line not found pushes nothing. -/
def replaceLoop (sorted : List SortMessage) : List (List Char) → Nat → List (List Char)
  | [], _ => []
  | line :: rest, startIndex =>
    if isMessageLine line then
      match findMatchFrom sorted startIndex line with
      | some index =>
        (jsSlice startIndex (index + 1) sorted).map (·.msg) ++ replaceLoop sorted rest (index + 1)
      | none => replaceLoop sorted rest startIndex
    else line :: replaceLoop sorted rest startIndex

/-- `sortOnReceiveTime` over the file's lines. An aborting `TypeError` in the
first pass is caught with the (still empty) result returned; an empty buffer
logs a notice and returns the empty result; otherwise the buffer is stable-
sorted by receive time and the second pass rebuilds the output. -/
def sortOnReceiveTime (lines : List (List Char)) : List (List Char) :=
  match collectMessages 0 lines with
  | none => []
  | some messages =>
    if messages.isEmpty then []
    else replaceLoop (stableSortMessages messages) lines 0

/-- State of the configuration scanner: the file-scoped configuration value
and the in-progress accumulator. -/
structure TraceParserState where
  traceConfiguration : Option Json := none
  configAcc : Option (List Char) := none

/-- The body of a comment line: its text after the `//` marker, trimmed. -/
def commentBody (line : List Char) : Option (List Char) :=
  let t := line.dropWhile jsWsCh
  if ("//".toList).isPrefixOf t then some (trimJsWs (t.drop 2)) else none

/-- Modelled from the spec: the trace-configuration extraction performed by
the scanner on comment lines, which is absent from the parser source here
(its comment rule simply ignores the line) and visible only through callers.
A comment line whose content is exactly the opening-brace marker begins
accumulation; subsequent comment lines append their trimmed body; a comment
line whose content is exactly the closing-brace marker ends accumulation and
parses the accumulated text as JSON, assigning the configuration on success
and emitting a non-fatal diagnostic (the returned flag) on failure, the
accumulator resetting either way. A non-comment line breaks the contiguous
block. -/
def configStep (st : TraceParserState) (line : List Char) : TraceParserState × Bool :=
  match commentBody line with
  | none => ({ st with configAcc := none }, false)
  | some body =>
    match st.configAcc with
    | none =>
      if body == ['\x7b'] then ({ st with configAcc := some ['\x7b'] }, false)
      else (st, false)
    | some acc =>
      if body == ['\x7d'] then
        match jsonParse (acc ++ ['\x7d']) with
        | some j => ({ traceConfiguration := some j, configAcc := none }, false)
        | none => ({ st with configAcc := none }, true)
      else ({ st with configAcc := some (acc ++ body) }, false)

/-- Modelled from the spec: one `parseLine` call of a parser session carrying
the configuration state; returns the new state, the diagnostic flag and the
parsed fact. -/
def parseLineWithConfig (st : TraceParserState) (line : List Char) (n : Nat) :
    TraceParserState × Bool × Option Fact :=
  let sd := configStep st line
  (sd.1, sd.2, parseLine line n)

/-- Modelled from the spec: a parser session over a file's lines in order,
collecting each line's diagnostic flag and fact. -/
def runTrace (st : TraceParserState) : List (List Char) → TraceParserState × List (Bool × Option Fact)
  | [] => (st, [])
  | line :: rest =>
    let r := parseLineWithConfig st line 0
    let rr := runTrace r.1 rest
    (rr.1, (r.2.1, r.2.2) :: rr.2)

/-! ### Token shapes, used to state token-level properties of the grammar -/

def kwTok (s : List Char) : Token := ⟨"keyword".toList, s, .vstr s⟩

def nameTok (s : List Char) : Token := ⟨"name".toList, s, .vstr s⟩

def addrTok (s : List Char) : Token := ⟨"address".toList, s, .vstr s⟩

def numTok (n : Nat) : Token := ⟨"number".toList, Nat.toDigits 10 n, .vnum n⟩

def dotTok : Token := ⟨"dot".toList, ['.'], .vstr ['.']⟩

def osbTok : Token := ⟨"open-square-bracket".toList, ['['], .vstr ['[']⟩

def csbTok : Token := ⟨"close-square-bracket".toList, [']'], .vstr [']']⟩

def colonTok : Token := ⟨"colon".toList, [':'], .vstr [':']⟩

def arrowTok : Token := ⟨"arrow".toList, "->".toList, .vstr "->".toList⟩

def eventTok (v : List Char) : Token := ⟨"event-with-data".toList, '(' :: v ++ [')'], .vstr v⟩

/-! ### Structure-expression paths, abstractly: a nonempty list of segments,
each a name with an optional numeric index -/

/-- The tokens the scanner produces for one path segment. -/
def segTokens (sg : List Char × Option Nat) : List Token :=
  nameTok sg.1 ::
    (match sg.2 with
     | some n => [osbTok, numTok n, csbTok]
     | none => [])

/-- The token sequence of a dot-separated path. -/
def pathTokens : List (List Char × Option Nat) → List Token
  | [] => []
  | [sg] => segTokens sg
  | sg :: rest => segTokens sg ++ dotTok :: pathTokens rest

/-- The tokens `isInstanceDecl` collects into `structureExpr` for a path. -/
def exprTokens : List (List Char × Option Nat) → List Token
  | [] => []
  | sg :: rest =>
    (nameTok sg.1 ::
      (match sg.2 with
       | some n => [numTok n]
       | none => [])) ++ exprTokens rest

/-- The rendering of one optional index, `[<n>]`. -/
def idxRender : Option Nat → List Char
  | some n => '[' :: Nat.toDigits 10 n ++ [']']
  | none => []

/-- The rendering of the non-leading segments, each preceded by a dot. -/
def renderCont : List (List Char × Option Nat) → List Char
  | [] => []
  | sg :: rest => '.' :: (sg.1 ++ idxRender sg.2) ++ renderCont rest

/-- The source text of a path, e.g. `x[0].y`. -/
def renderPath : List (List Char × Option Nat) → List Char
  | [] => []
  | sg :: rest => (sg.1 ++ idxRender sg.2) ++ renderCont rest

/-- `checkKinds` as a head-to-head comparison of the remaining tokens. -/
def checkKindsList : List Token → List (List Char) → Bool
  | _, [] => true
  | [], _ :: _ => false
  | t :: ts, k :: ks => kindMatches k t && checkKindsList ts ks

/-- The raw text of a `note "<text>"` line. -/
def noteLine (s : List Char) : List Char := "note \"".toList ++ s ++ ['"']

/-- The comment lines of the specification's configuration-block example. -/
def cfgGoodLines : List (List Char) :=
  ["// \x7b".toList,
   "// \"trace\": \x7b\"application\":\"App\"\x7d".toList,
   "// \x7d".toList]

/-- A malformed configuration block followed by an ordinary instance line. -/
def cfgBadLines : List (List Char) :=
  ["// \x7b".toList, "// oops".toList, "// \x7d".toList, "instance 0x1 a".toList]

/-! ### Helper lemmas: the token matcher -/

theorem checkKinds_eq_list (kinds : List (List Char)) :
    ∀ (tokens : List Token) (i : Nat),
      checkKinds tokens i kinds = checkKindsList (tokens.drop i) kinds := by
  induction kinds with
  | nil => intro tokens i; cases tokens.drop i <;> rfl
  | cons k ks ih =>
    intro tokens i
    rw [checkKinds]
    cases h : tokens.get? i with
    | none =>
      have hd : tokens.drop i = [] := by
        rw [List.drop_eq_nil_iff]
        exact List.get?_eq_none.mp h
      rw [hd]; rfl
    | some t =>
      have hi : i < tokens.length := by
        by_contra hc
        rw [List.get?_eq_none.mpr (by omega)] at h
        exact Option.noConfusion h
      have hd : tokens.drop i = t :: tokens.drop (i + 1) := by
        rw [List.drop_eq_getElem_cons hi]
        have := List.get?_eq_getElem? tokens i
        rw [h] at this
        have hg : tokens[i] = t := by
          have := this.symm
          rwa [List.getElem?_eq_getElem hi, Option.some_inj] at this
        rw [hg]
      rw [hd, checkKindsList, ih]

theorem matchTokens_short {σ : Type _} (i : Nat) (tokens : List Token)
    (kinds : List (List Char)) (s : σ) (f : List Token → σ → σ × Option Bool)
    (h : tokens.length < i + kinds.length) :
    matchTokens i tokens kinds s f = (false, i, s) := by
  simp [matchTokens, h]

theorem matchTokens_nomatch {σ : Type _} (i : Nat) (tokens : List Token)
    (kinds : List (List Char)) (s : σ) (f : List Token → σ → σ × Option Bool)
    (h1 : ¬ tokens.length < i + kinds.length) (h2 : checkKinds tokens i kinds = false) :
    matchTokens i tokens kinds s f = (false, i, s) := by
  simp [matchTokens, h1, h2]

theorem matchTokens_match {σ : Type _} (i : Nat) (tokens : List Token)
    (kinds : List (List Char)) (s : σ) (f : List Token → σ → σ × Option Bool)
    (h1 : ¬ tokens.length < i + kinds.length) (h2 : checkKinds tokens i kinds = true) :
    matchTokens i tokens kinds s f =
      (true,
       if (f (jsSlice i (i + kinds.length) tokens) s).2 == some false then i
       else i + kinds.length,
       (f (jsSlice i (i + kinds.length) tokens) s).1) := by
  rw [matchTokens, if_neg h1, if_pos h2]
  split <;> simp_all

theorem matchTokens_append_match {σ : Type _} (pre l : List Token)
    (kinds : List (List Char)) (s : σ) (f : List Token → σ → σ × Option Bool)
    (hlen : kinds.length ≤ l.length) (hck : checkKindsList l kinds = true) :
    matchTokens pre.length (pre ++ l) kinds s f =
      (true,
       if (f (l.take kinds.length) s).2 == some false then pre.length
       else pre.length + kinds.length,
       (f (l.take kinds.length) s).1) := by
  have h1 : ¬ (pre ++ l).length < pre.length + kinds.length := by
    simp only [List.length_append]; omega
  have h2 : checkKinds (pre ++ l) pre.length kinds = true := by
    rw [checkKinds_eq_list, List.drop_left]; exact hck
  have hsl : jsSlice pre.length (pre.length + kinds.length) (pre ++ l) = l.take kinds.length := by
    simp [jsSlice, List.drop_left]
  rw [matchTokens_match _ _ _ _ _ h1 h2, hsl]

theorem matchTokens_append_nomatch {σ : Type _} (pre l : List Token)
    (kinds : List (List Char)) (s : σ) (f : List Token → σ → σ × Option Bool)
    (h : checkKindsList l kinds = false ∨ l.length < kinds.length) :
    matchTokens pre.length (pre ++ l) kinds s f = (false, pre.length, s) := by
  by_cases hs : (pre ++ l).length < pre.length + kinds.length
  · exact matchTokens_short _ _ _ _ _ hs
  · refine matchTokens_nomatch _ _ _ _ _ hs ?_
    rw [checkKinds_eq_list, List.drop_left]
    rcases h with h | h
    · exact h
    · exfalso; simp only [List.length_append] at hs; omega

/-! ### Helper lemmas: the scanner -/

theorem matchKeyword_pos {l : List Char} {t : Token} {n : Nat}
    (h : matchKeyword l = some (t, n)) : 0 < n := by
  unfold matchKeyword at h
  split at h <;> [skip; split at h] <;> simp_all <;> omega

theorem matchName_pos {l : List Char} {t : Token} {n : Nat}
    (h : matchName l = some (t, n)) : 0 < n := by
  unfold matchName at h
  split at h
  · dsimp only at h
    split at h <;> simp_all <;> omega
  · simp_all

theorem matchStr_pos {l : List Char} {t : Token} {n : Nat}
    (h : matchStr l = some (t, n)) : 0 < n := by
  unfold matchStr at h
  split at h
  · dsimp only at h
    split at h <;> simp_all <;> omega
  · simp_all

theorem matchComment_pos {l : List Char} {n : Nat}
    (h : matchComment l = some n) : 0 < n := by
  unfold matchComment at h
  split at h
  · next hp =>
    have hlen : ("//".toList).length ≤ l.length :=
      (List.isPrefixOf_iff_prefix.mp hp).length_le
    split at h <;> simp_all <;> omega
  · simp_all

theorem matchWs_pos {l : List Char} {n : Nat}
    (h : matchWs l = some n) : 0 < n := by
  unfold matchWs at h
  dsimp only at h
  split at h
  · exact absurd h (by simp)
  · next he =>
    cases hr : l.takeWhile isWsCh with
    | nil => rw [hr] at he; simp at he
    | cons a r => rw [hr] at h; simp at h; omega

theorem matchAddress_pos {l : List Char} {t : Token} {n : Nat}
    (h : matchAddress l = some (t, n)) : 0 < n := by
  unfold matchAddress at h
  split at h
  · dsimp only at h
    split at h <;> simp_all <;> omega
  · simp_all

theorem matchNumber_pos {l : List Char} {t : Token} {n : Nat}
    (h : matchNumber l = some (t, n)) : 0 < n := by
  unfold matchNumber at h
  dsimp only at h
  split at h
  · exact absurd h (by simp)
  · next he =>
    cases hr : l.takeWhile isDigitCh with
    | nil => rw [hr] at he; simp at he
    | cons a r => rw [hr] at h; simp at h; omega

theorem matchArrow_pos {l : List Char} {t : Token} {n : Nat}
    (h : matchArrow l = some (t, n)) : 0 < n := by
  unfold matchArrow at h
  split at h <;> simp_all <;> omega

theorem matchSingle_pos {c : Char} {ty l : List Char} {t : Token} {n : Nat}
    (h : matchSingle c ty l = some (t, n)) : 0 < n := by
  unfold matchSingle at h
  split at h
  · split at h <;> simp_all <;> omega
  · simp_all

theorem matchEventData_pos {l : List Char} {t : Token} {n : Nat}
    (h : matchEventData l = some (t, n)) : 0 < n := by
  unfold matchEventData at h
  split at h
  · split at h
    · split at h <;> simp_all <;> omega
    · simp_all
  · simp_all

theorem nextMunch_pos {l : List Char} {tk : Option Token} {n : Nat}
    (h : nextMunch l = some (tk, n)) : 0 < n := by
  unfold nextMunch at h
  split at h
  · next p heq => cases h; exact matchKeyword_pos heq
  · split at h
    · next p heq => cases h; exact matchName_pos heq
    · split at h
      · next p heq => cases h; exact matchStr_pos heq
      · split at h
        · next m heq => cases h; exact matchComment_pos heq
        · split at h
          · next m heq => cases h; exact matchWs_pos heq
          · split at h
            · next p heq => cases h; exact matchAddress_pos heq
            · split at h
              · next p heq => cases h; exact matchNumber_pos heq
              · split at h
                · next p heq => cases h; exact matchArrow_pos heq
                · split at h
                  · next p heq => cases h; exact matchSingle_pos heq
                  · split at h
                    · next p heq => cases h; exact matchSingle_pos heq
                    · split at h
                      · next p heq => cases h; exact matchSingle_pos heq
                      · split at h
                        · next p heq => cases h; exact matchEventData_pos heq
                        · split at h
                          · next p heq => cases h; exact matchSingle_pos heq
                          · exact absurd h (by simp)

theorem nextMunch_nil : nextMunch [] = none := rfl

theorem scanGo_cons (g : Nat) (c : Char) (r : List Char) :
    scanGo (g + 1) (c :: r) =
      (match nextMunch (c :: r) with
       | none => none
       | some (tk, n) =>
         match scanGo g ((c :: r).drop n) with
         | none => none
         | some ts =>
           some (match tk with
                 | some t => t :: ts
                 | none => ts)) := rfl

theorem scanGo_fuel_invariant :
    ∀ (n : Nat) (l : List Char), l.length ≤ n → ∀ (f1 f2 : Nat),
      l.length < f1 → l.length < f2 → scanGo f1 l = scanGo f2 l := by
  intro n
  induction n with
  | zero =>
    intro l hl f1 f2 h1 h2
    have : l = [] := List.length_eq_zero.mp (by omega)
    subst this
    obtain ⟨g1, rfl⟩ : ∃ g, f1 = g + 1 := ⟨f1 - 1, by omega⟩
    obtain ⟨g2, rfl⟩ : ∃ g, f2 = g + 1 := ⟨f2 - 1, by omega⟩
    rfl
  | succ n ih =>
    intro l hl f1 f2 h1 h2
    obtain ⟨g1, rfl⟩ : ∃ g, f1 = g + 1 := ⟨f1 - 1, by omega⟩
    obtain ⟨g2, rfl⟩ : ∃ g, f2 = g + 1 := ⟨f2 - 1, by omega⟩
    cases l with
    | nil => rfl
    | cons c r =>
      rw [scanGo_cons g1, scanGo_cons g2]
      cases hm : nextMunch (c :: r) with
      | none => rfl
      | some p =>
        obtain ⟨tk, m⟩ := p
        have hmp : 0 < m := nextMunch_pos hm
        have hrec : scanGo g1 ((c :: r).drop m) = scanGo g2 ((c :: r).drop m) := by
          apply ih
          · simp only [List.length_drop]; simp at hl ⊢; omega
          · simp only [List.length_drop]; simp at h1 ⊢; omega
          · simp only [List.length_drop]; simp at h2 ⊢; omega
        simp [hrec]

theorem scanGo_adequate {fuel : Nat} {l : List Char} (h : l.length < fuel) :
    scanGo fuel l = scan l :=
  scanGo_fuel_invariant l.length l le_rfl fuel (l.length + 1) h (Nat.lt_succ_self _)

theorem scan_munch_tok {l : List Char} {tok : Token} {n : Nat}
    (h : nextMunch l = some (some tok, n)) :
    scan l = Option.map (fun ts => tok :: ts) (scan (l.drop n)) := by
  have hn : 0 < n := nextMunch_pos h
  have hne : l ≠ [] := by
    intro e; rw [e, nextMunch_nil] at h; exact Option.noConfusion h
  obtain ⟨c, r, rfl⟩ : ∃ c r, l = c :: r := by
    cases l with
    | nil => exact absurd rfl hne
    | cons c r => exact ⟨c, r, rfl⟩
  show scanGo ((c :: r).length + 1) (c :: r) = _
  rw [scanGo_cons, h]
  have hade : scanGo ((c :: r).length) ((c :: r).drop n) = scan ((c :: r).drop n) := by
    apply scanGo_adequate
    simp only [List.length_drop, List.length_cons]
    omega
  dsimp only
  rw [hade]
  cases scan ((c :: r).drop n) <;> rfl

theorem scan_munch_skip {l : List Char} {n : Nat}
    (h : nextMunch l = some (none, n)) :
    scan l = scan (l.drop n) := by
  have hn : 0 < n := nextMunch_pos h
  have hne : l ≠ [] := by
    intro e; rw [e, nextMunch_nil] at h; exact Option.noConfusion h
  obtain ⟨c, r, rfl⟩ : ∃ c r, l = c :: r := by
    cases l with
    | nil => exact absurd rfl hne
    | cons c r => exact ⟨c, r, rfl⟩
  show scanGo ((c :: r).length + 1) (c :: r) = _
  rw [scanGo_cons, h]
  have hade : scanGo ((c :: r).length) ((c :: r).drop n) = scan ((c :: r).drop n) := by
    apply scanGo_adequate
    simp only [List.length_drop, List.length_cons]
    omega
  dsimp only
  rw [hade]
  cases scan ((c :: r).drop n) <;> rfl

theorem scan_err_munch {l : List Char} (hne : l ≠ [])
    (h : nextMunch l = none) : scan l = none := by
  obtain ⟨c, r, rfl⟩ : ∃ c r, l = c :: r := by
    cases l with
    | nil => exact absurd rfl hne
    | cons c r => exact ⟨c, r, rfl⟩
  show scanGo ((c :: r).length + 1) (c :: r) = _
  rw [scanGo_cons, h]

/-! ### Helper lemmas: kind matching on the token shapes -/

@[simp] theorem kindMatches_kw_instance :
    kindMatches "kw:instance".toList (kwTok "instance".toList) = true := rfl

@[simp] theorem kindMatches_kw_note :
    kindMatches "kw:note".toList (kwTok "note".toList) = true := rfl

@[simp] theorem kindMatches_addr (s : List Char) :
    kindMatches "address".toList (addrTok s) = true := rfl

@[simp] theorem kindMatches_name (s : List Char) :
    kindMatches "name".toList (nameTok s) = true := rfl

@[simp] theorem kindMatches_dot : kindMatches "dot".toList dotTok = true := rfl

@[simp] theorem kindMatches_colon : kindMatches "colon".toList colonTok = true := rfl

@[simp] theorem kindMatches_eof : kindMatches "EOF".toList eofToken = true := rfl

@[simp] theorem kindMatches_arrow : kindMatches "arrow".toList arrowTok = true := rfl

@[simp] theorem kindMatches_osb :
    kindMatches "open-square-bracket".toList osbTok = true := rfl

@[simp] theorem kindMatches_csb :
    kindMatches "close-square-bracket".toList csbTok = true := rfl

@[simp] theorem kindMatches_num (n : Nat) :
    kindMatches "number".toList (numTok n) = true := rfl

@[simp] theorem kindMatches_event (v : List Char) :
    kindMatches "event-with-data".toList (eventTok v) = true := rfl

@[simp] theorem kindMatches_dot_osb : kindMatches "dot".toList osbTok = false := rfl

@[simp] theorem kindMatches_dot_colon : kindMatches "dot".toList colonTok = false := rfl

@[simp] theorem kindMatches_dot_eof : kindMatches "dot".toList eofToken = false := rfl

@[simp] theorem kindMatches_dot_arrow : kindMatches "dot".toList arrowTok = false := rfl

@[simp] theorem kindMatches_osb_colon :
    kindMatches "open-square-bracket".toList colonTok = false := rfl

@[simp] theorem kindMatches_osb_eof :
    kindMatches "open-square-bracket".toList eofToken = false := rfl

@[simp] theorem kindMatches_osb_arrow :
    kindMatches "open-square-bracket".toList arrowTok = false := rfl

@[simp] theorem kindMatches_colon_eof : kindMatches "colon".toList eofToken = false := rfl

@[simp] theorem kindMatches_kw_instance_addr (s : List Char) :
    kindMatches "kw:instance".toList (addrTok s) = false := rfl

@[simp] theorem checkKindsList_nil_kinds (ts : List Token) :
    checkKindsList ts [] = true := by cases ts <;> rfl

@[simp] theorem checkKindsList_cons (t : Token) (ts : List Token)
    (k : List Char) (ks : List (List Char)) :
    checkKindsList (t :: ts) (k :: ks) = (kindMatches k t && checkKindsList ts ks) := rfl

theorem instLoop_succ (fuel : Nat) (tokens : List Token) (i : Nat) (expr : List Token) :
    instLoop (fuel + 1) tokens i expr =
      (if i < tokens.length then
        match matchTokens i tokens ["name".toList] expr
            (fun matched s => (s ++ [matched.getD 0 eofToken], none)) with
        | (okn, i1, expr1) =>
          if !okn then none
          else
            match matchTokens i1 tokens ["dot".toList] () (fun _ s => (s, none)) with
            | (okd1, i2, _) =>
              if okd1 then instLoop fuel tokens i2 expr1
              else
                match matchTokens i1 tokens
                    ["open-square-bracket".toList, "number".toList,
                     "close-square-bracket".toList]
                    expr1 (fun matched s => (s ++ [matched.getD 1 eofToken], none)) with
                | (_, i3, expr2) =>
                  match matchTokens i3 tokens ["dot".toList] () (fun _ s => (s, none)) with
                  | (okd2, i4, _) =>
                    if okd2 then instLoop fuel tokens i4 expr2
                    else
                      match matchTokens i3 tokens ["colon".toList] ()
                          (fun _ s => (s, some false)) with
                      | (okc, i5, _) =>
                        if okc then some (expr2, i5)
                        else
                          match matchTokens i3 tokens ["EOF".toList] ()
                              (fun _ s => (s, none)) with
                          | (oke, i6, _) =>
                            if oke then some (expr2, i6)
                            else instLoop fuel tokens i6 expr2
      else some (expr, i)) := rfl

@[simp] theorem beq_none_some_false : ((none : Option Bool) == some false) = false := rfl

/-! ### Claim theorems -/

/-- C8: `matchTokens` returns false and leaves the cursor unchanged when there
are too few tokens or a kind mismatches; when all kinds match it calls the
callback exactly once on the matched slice and advances the cursor by the
number of expected kinds, unless the callback returns false, in which case
the cursor stays put. -/
theorem c8_matchTokens_contract (σ : Type) (i : Nat) (tokens : List Token)
    (kinds : List (List Char)) (s : σ) (f : List Token → σ → σ × Option Bool) :
    (tokens.length < i + kinds.length → matchTokens i tokens kinds s f = (false, i, s)) ∧
    (¬ tokens.length < i + kinds.length → checkKinds tokens i kinds = false →
      matchTokens i tokens kinds s f = (false, i, s)) ∧
    (¬ tokens.length < i + kinds.length → checkKinds tokens i kinds = true →
      matchTokens i tokens kinds s f =
        (true,
         if (f (jsSlice i (i + kinds.length) tokens) s).2 == some false then i
         else i + kinds.length,
         (f (jsSlice i (i + kinds.length) tokens) s).1)) :=
  ⟨fun h => matchTokens_short _ _ _ _ _ h,
   fun h1 h2 => matchTokens_nomatch _ _ _ _ _ h1 h2,
   fun h1 h2 => matchTokens_match _ _ _ _ _ h1 h2⟩

theorem c8_matchTokens_contract_witness :
    matchTokens 0 [eofToken] ["EOF".toList] (0 : Nat)
      (fun _ n => (n + 1, none)) = (true, 1, 1) := by
  have h := (c8_matchTokens_contract Nat 0 [eofToken] ["EOF".toList] 0
    (fun _ n => (n + 1, none))).2.2 (by decide) (by rfl)
  simpa using h

/-- C1: every failure path of `parseLine` — a scanner error on a character no
rule matches, a blank or whitespace-only line, and a token list matching none
of the three productions — returns the same `none`, and those are the only
ways `parseLine` returns `none`; concrete lines of all three kinds evaluate
to that same signal. -/
theorem c1_parseLine_failure_signal :
    (∀ (line : List Char) (n : Nat),
      parseLine line n = none ↔
        (scan line = none ∨
         ∃ tokens, scan line = some tokens ∧
           ((tokens.length == 1 && (tokens.getD 0 eofToken).type == "EOF".toList) = true ∨
            (isInstanceDecl tokens = none ∧ isMessageOccurrance tokens = none ∧
             isNote tokens = none)))) ∧
    parseLine "".toList 0 = none ∧
    parseLine "   ".toList 0 = none ∧
    parseLine "@@@".toList 0 = none ∧
    parseLine "instance".toList 0 = none := by
  refine ⟨?_, rfl, rfl, rfl, rfl⟩
  intro line n
  unfold parseLine
  cases h : scan line with
  | none => simp
  | some tokens =>
    simp only [Option.some.injEq, exists_eq_left', false_or, reduceCtorEq]
    by_cases hb : (tokens.length == 1 && (tokens.getD 0 eofToken).type == "EOF".toList) = true
    · rw [if_pos hb]
      simp at hb
      obtain ⟨h1, h2⟩ := hb
      simp [h1]
      have hlt : 0 < tokens.length := by omega
      have h0 : tokens[0]? = some tokens[0] := List.getElem?_eq_getElem hlt
      rw [h0, Option.getD_some] at h2
      left
      exact h2
    · rw [if_neg hb]
      simp at hb
      cases hi : isInstanceDecl tokens with
      | some d => simp [hi]; exact hb
      | none =>
        cases hm : isMessageOccurrance tokens with
        | some m => simp [hi, hm]; exact hb
        | none =>
          cases hn : isNote tokens with
          | some nt => simp [hi, hm, hn]; exact hb
          | none => simp [hi, hm, hn]

/-- C3 counterexample: a file whose only line is an instance declaration has
an empty sort buffer, and `sortOnReceiveTime` returns the empty list, not the
original line sequence. -/
theorem c3_empty_buffer_counterexample :
    sortOnReceiveTime ["instance 0x1 a".toList] = [] ∧
    (["instance 0x1 a".toList] : List (List Char)) ≠ [] :=
  ⟨rfl, by decide⟩

/-- C3 amended: when no message carries the configured timestamp field (the
sort buffer collects empty), the sorter returns the empty line sequence —
after logging a notice — rather than the original lines. -/
theorem c3_empty_buffer_returns_empty (lines : List (List Char))
    (h : collectMessages 0 lines = some []) : sortOnReceiveTime lines = [] := by
  unfold sortOnReceiveTime
  rw [h]
  rfl

theorem c3_empty_buffer_returns_empty_witness :
    sortOnReceiveTime ["instance 0x1 a".toList] = [] :=
  c3_empty_buffer_returns_empty _ rfl

/-- C9 counterexample: an instance line with no dynamic-type clause whose path
is not `Top`/`specials` makes `isSystemInstance` and `isTimerInstance` return
false normally — the short-circuiting `&&` never dereferences the absent
dynamic type, so the claim's "always throws" fails. -/
theorem c9_no_throw_counterexample :
    ∃ d, parseLine "instance 0x1 application".toList 0 = some (.inst d) ∧
      d.dynamicType = none ∧
      isSystemInstance d = some false ∧ isTimerInstance d = some false := by
  refine ⟨_, rfl, rfl, rfl, rfl⟩

/-- C9 amended: the absent dynamic type is dereferenced (the `TypeError`
branch, modelled as `none`) exactly when the rendered path equals `Top`
(for `isSystemInstance`) or `specials` (for `isTimerInstance`); for every
other path the functions return false without touching it. -/
theorem c9_short_circuit_amended :
    (∀ d : InstanceDecl, structureExprToString d.structureExpr ≠ "Top".toList →
      isSystemInstance d = some false) ∧
    (∀ d : InstanceDecl, structureExprToString d.structureExpr ≠ "specials".toList →
      isTimerInstance d = some false) ∧
    (∃ d, parseLine "instance 0x1 Top".toList 0 = some (.inst d) ∧
      d.dynamicType = none ∧ isSystemInstance d = none) ∧
    (∃ d, parseLine "instance 0x1 specials".toList 0 = some (.inst d) ∧
      d.dynamicType = none ∧ isTimerInstance d = none) := by
  refine ⟨?_, ?_, ⟨_, rfl, rfl, rfl⟩, ⟨_, rfl, rfl, rfl⟩⟩
  · intro d hne
    simp only [isSystemInstance]
    rw [if_neg]
    simp only [beq_iff_eq]
    exact hne
  · intro d hne
    simp only [isTimerInstance]
    rw [if_neg]
    simp only [beq_iff_eq]
    exact hne

theorem c9_short_circuit_amended_witness :
    isSystemInstance ⟨eofToken, [], none⟩ = some false ∧
    isTimerInstance ⟨eofToken, [], none⟩ = some false :=
  ⟨c9_short_circuit_amended.1 _ (by decide), c9_short_circuit_amended.2.1 _ (by decide)⟩

/-- C10: the instance production does not require the token stream to be
consumed: whatever tokens follow a valid `instance 0x1 a: T` prefix, the same
`InstanceDecl` is returned and the trailing tokens are silently ignored; a
concrete line with trailing junk still parses through `parseLine`. -/
theorem c10_trailing_tokens_ignored :
    (∀ rest : List Token,
      isInstanceDecl ([kwTok "instance".toList, addrTok "0x1".toList, nameTok "a".toList,
                       colonTok, nameTok "T".toList] ++ rest) =
        some ⟨addrTok "0x1".toList, [nameTok "a".toList], some (nameTok "T".toList)⟩) ∧
    (∃ d, parseLine "instance 0x1 a: T junk 99".toList 0 = some (.inst d) ∧
      d.structureExpr = [nameTok "a".toList] ∧
      d.dynamicType = some (nameTok "T".toList)) := by
  constructor
  · intro rest
    have h0 : matchTokens 0
        ([kwTok "instance".toList, addrTok "0x1".toList, nameTok "a".toList,
          colonTok, nameTok "T".toList] ++ rest)
        ["kw:instance".toList, "address".toList] (none : Option Token)
        (fun matched _s => (some (matched.getD 1 eofToken), none)) =
        (true, 2, some (addrTok "0x1".toList)) := by
      have h1 : ¬ ([kwTok "instance".toList, addrTok "0x1".toList, nameTok "a".toList,
          colonTok, nameTok "T".toList] ++ rest).length <
          0 + (["kw:instance".toList, "address".toList]).length := by
        simp only [List.length_append, List.length_cons, List.length_nil]
        omega
      have h2 : checkKinds
          ([kwTok "instance".toList, addrTok "0x1".toList, nameTok "a".toList,
            colonTok, nameTok "T".toList] ++ rest) 0
          ["kw:instance".toList, "address".toList] = true := rfl
      rw [matchTokens_match _ _ _ _ _ h1 h2]
      rfl
    have hd1 : matchTokens 3
        ([kwTok "instance".toList, addrTok "0x1".toList, nameTok "a".toList,
          colonTok, nameTok "T".toList] ++ rest)
        ["dot".toList] () (fun _ s => (s, none)) = (false, 3, ()) := by
      by_cases hs : ([kwTok "instance".toList, addrTok "0x1".toList, nameTok "a".toList,
                      colonTok, nameTok "T".toList] ++ rest).length <
          3 + (["dot".toList]).length
      · exact matchTokens_short _ _ _ _ _ hs
      · have h2 : checkKinds
            ([kwTok "instance".toList, addrTok "0x1".toList, nameTok "a".toList,
              colonTok, nameTok "T".toList] ++ rest) 3 ["dot".toList] = false := rfl
        exact matchTokens_nomatch _ _ _ _ _ hs h2
    have hloop : instLoop
        (([kwTok "instance".toList, addrTok "0x1".toList, nameTok "a".toList,
           colonTok, nameTok "T".toList] ++ rest).length + 1)
        ([kwTok "instance".toList, addrTok "0x1".toList, nameTok "a".toList,
          colonTok, nameTok "T".toList] ++ rest) 2 [] =
        some ([nameTok "a".toList], 3) := by
      rw [instLoop_succ]
      rw [if_pos (show 2 < ([kwTok "instance".toList, addrTok "0x1".toList,
        nameTok "a".toList, colonTok, nameTok "T".toList] ++ rest).length by
          simp only [List.length_append, List.length_cons, List.length_nil]; omega)]
      have hn : matchTokens 2
          ([kwTok "instance".toList, addrTok "0x1".toList, nameTok "a".toList,
            colonTok, nameTok "T".toList] ++ rest)
          ["name".toList] ([] : List Token)
          (fun matched s => (s ++ [matched.getD 0 eofToken], none)) =
          (true, 3, [nameTok "a".toList]) := by
        have h1 : ¬ ([kwTok "instance".toList, addrTok "0x1".toList, nameTok "a".toList,
            colonTok, nameTok "T".toList] ++ rest).length < 2 + (["name".toList]).length := by
          simp only [List.length_append, List.length_cons, List.length_nil]
          omega
        have h2 : checkKinds
            ([kwTok "instance".toList, addrTok "0x1".toList, nameTok "a".toList,
              colonTok, nameTok "T".toList] ++ rest) 2 ["name".toList] = true := rfl
        rw [matchTokens_match _ _ _ _ _ h1 h2]
        rfl
      rw [hn]
      dsimp only
      rw [hd1]
      dsimp only
      have hb3 : matchTokens 3
          ([kwTok "instance".toList, addrTok "0x1".toList, nameTok "a".toList,
            colonTok, nameTok "T".toList] ++ rest)
          ["open-square-bracket".toList, "number".toList, "close-square-bracket".toList]
          [nameTok "a".toList]
          (fun matched s => (s ++ [matched.getD 1 eofToken], none)) =
          (false, 3, [nameTok "a".toList]) := by
        by_cases hs : ([kwTok "instance".toList, addrTok "0x1".toList, nameTok "a".toList,
                        colonTok, nameTok "T".toList] ++ rest).length <
            3 + (["open-square-bracket".toList, "number".toList,
                  "close-square-bracket".toList]).length
        · exact matchTokens_short _ _ _ _ _ hs
        · have h2 : checkKinds
              ([kwTok "instance".toList, addrTok "0x1".toList, nameTok "a".toList,
                colonTok, nameTok "T".toList] ++ rest) 3
              ["open-square-bracket".toList, "number".toList,
               "close-square-bracket".toList] = false := rfl
          exact matchTokens_nomatch _ _ _ _ _ hs h2
      rw [hb3]
      dsimp only
      rw [hd1]
      dsimp only
      have hc : matchTokens 3
          ([kwTok "instance".toList, addrTok "0x1".toList, nameTok "a".toList,
            colonTok, nameTok "T".toList] ++ rest)
          ["colon".toList] () (fun _ s => (s, some false)) = (true, 3, ()) := by
        have h1 : ¬ ([kwTok "instance".toList, addrTok "0x1".toList, nameTok "a".toList,
            colonTok, nameTok "T".toList] ++ rest).length < 3 + (["colon".toList]).length := by
          simp only [List.length_append, List.length_cons, List.length_nil]
          omega
        have h2 : checkKinds
            ([kwTok "instance".toList, addrTok "0x1".toList, nameTok "a".toList,
              colonTok, nameTok "T".toList] ++ rest) 3 ["colon".toList] = true := rfl
        rw [matchTokens_match _ _ _ _ _ h1 h2]
        rfl
      rw [hc]
      rfl
    have hdyn : matchTokens 3
        ([kwTok "instance".toList, addrTok "0x1".toList, nameTok "a".toList,
          colonTok, nameTok "T".toList] ++ rest)
        ["colon".toList, "name".toList] (none : Option Token)
        (fun matched _s => (some (matched.getD 1 eofToken), none)) =
        (true, 5, some (nameTok "T".toList)) := by
      have h1 : ¬ ([kwTok "instance".toList, addrTok "0x1".toList, nameTok "a".toList,
          colonTok, nameTok "T".toList] ++ rest).length <
          3 + (["colon".toList, "name".toList]).length := by
        simp only [List.length_append, List.length_cons, List.length_nil]
        omega
      have h2 : checkKinds
          ([kwTok "instance".toList, addrTok "0x1".toList, nameTok "a".toList,
            colonTok, nameTok "T".toList] ++ rest) 3
          ["colon".toList, "name".toList] = true := rfl
      rw [matchTokens_match _ _ _ _ _ h1 h2]
      rfl
    simp only [isInstanceDecl]
    rw [h0]
    dsimp only
    rw [hloop]
    dsimp only
    rw [hdyn]
    rfl
  · refine ⟨_, rfl, rfl, rfl⟩

/-- C4: the specification's configuration comment block assigns a
configuration value whose `trace.application` field is `App`, with no
diagnostic; a malformed block assigns no configuration value, raises one
non-fatal diagnostic, and parsing of subsequent lines continues (the
following instance line still yields its fact). -/
theorem c4_trace_configuration :
    (∃ j tj,
      (runTrace {} cfgGoodLines).1.traceConfiguration = some j ∧
      j.getField "trace".toList = some tj ∧
      tj.getField "application".toList = some (.str "App".toList) ∧
      (runTrace {} cfgGoodLines).2.map Prod.fst = [false, false, false]) ∧
    ((runTrace {} cfgBadLines).1.traceConfiguration = none ∧
     (runTrace {} cfgBadLines).2.map Prod.fst = [false, false, true, false] ∧
     ∃ d, ((runTrace {} cfgBadLines).2.map Prod.snd).getD 3 none = some (.inst d) ∧
       d.address.text = "0x1".toList) := by
  refine ⟨⟨_, _, rfl, rfl, rfl, rfl⟩, rfl, rfl, _, rfl, rfl⟩

/-- C6: tokens of the shape `<addr> <name> -> <addr> <name> : <name> <event
data>` always produce a `MessageOccurrance` whose sender/receiver names, event
and data are taken positionally, the data being the JSON value of the payload
text when it parses and the raw text kept verbatim otherwise; concrete lines
of both payload kinds parse accordingly through `parseLine`. -/
theorem c6_message_shape :
    (∀ (a1 A a2 B E p : List Char),
      isMessageOccurrance
        [addrTok a1, nameTok A, arrowTok, addrTok a2, nameTok B,
         colonTok, nameTok E, eventTok p, eofToken] =
        some ⟨addrTok a1, addrTok a2, A, B, none, none, none, none, nameTok E,
              (match jsonParse p with
               | some j => .structured j
               | none => .rawText p)⟩) ∧
    (∃ m, parseLine "0x1 A -> 0x2 B: evt(hello)".toList 0 = some (.msg m) ∧
      m.senderName = "A".toList ∧ m.receiverName = "B".toList ∧
      m.event.text = "evt".toList ∧ m.data = .rawText "hello".toList) ∧
    (∃ m j, parseLine "0x1 A -> 0x2 B: evt(\x7b\"a\":1\x7d)".toList 0 = some (.msg m) ∧
      m.senderName = "A".toList ∧ m.receiverName = "B".toList ∧
      m.event.text = "evt".toList ∧ m.data = .structured j ∧
      j.getField "a".toList = some (.num 1)) := by
  refine ⟨fun a1 A a2 B E p => rfl, ⟨_, rfl, rfl, rfl, rfl, rfl⟩,
          ⟨_, _, rfl, rfl, rfl, rfl, rfl, rfl⟩⟩

theorem lastIndexOf_append_single (c : Char) :
    ∀ s : List Char, lastIndexOf c (s ++ [c]) = some s.length := by
  intro s
  induction s with
  | nil => simp [lastIndexOf]
  | cons a r ih =>
    show lastIndexOf c (a :: (r ++ [c])) = some (r.length + 1)
    rw [lastIndexOf, ih]

theorem matchStr_closed (s : List Char) (h : ∀ c ∈ s, notCRLF c = true) :
    matchStr ('"' :: (s ++ ['"'])) =
      some (⟨"string".toList, '"' :: (s ++ ['"']), .vstr (jsUnescapeQuotes s)⟩,
            s.length + 2) := by
  have hpfx : (s ++ ['"']).takeWhile notCRLF = s ++ ['"'] := by
    rw [List.takeWhile_eq_self_iff]
    intro a ha
    rcases List.mem_append.mp ha with hm | hm
    · exact h a hm
    · simp only [List.mem_singleton] at hm
      subst hm; rfl
  have e : matchStr ('"' :: (s ++ ['"'])) =
      (match lastIndexOf '"' ((s ++ ['"']).takeWhile notCRLF) with
       | some j =>
         some (Token.mk "string".toList
                 ('"' :: (((s ++ ['"']).takeWhile notCRLF).take j ++ ['"']))
                 (TokenValue.vstr (jsUnescapeQuotes
                   (((s ++ ['"']).takeWhile notCRLF).take j))),
               j + 2)
       | none => none) := rfl
  rw [e, hpfx, lastIndexOf_append_single]
  dsimp only
  rw [List.take_left]

theorem scan_noteLine (s : List Char) (h : ∀ c ∈ s, notCRLF c = true) :
    scan (noteLine s) =
      some [kwTok "note".toList,
            ⟨"string".toList, '"' :: (s ++ ['"']), .vstr (jsUnescapeQuotes s)⟩,
            eofToken] := by
  have e1 : noteLine s = 'n' :: 'o' :: 't' :: 'e' :: ' ' :: '"' :: (s ++ ['"']) := rfl
  rw [e1]
  rw [scan_munch_tok (show nextMunch ('n' :: 'o' :: 't' :: 'e' :: ' ' :: '"' :: (s ++ ['"'])) =
    some (some (kwTok "note".toList), 4) from rfl)]
  rw [show ('n' :: 'o' :: 't' :: 'e' :: ' ' :: '"' :: (s ++ ['"'])).drop 4 =
    ' ' :: '"' :: (s ++ ['"']) from rfl]
  rw [scan_munch_skip (show nextMunch (' ' :: '"' :: (s ++ ['"'])) =
    some (none, 1) from rfl)]
  rw [show (' ' :: '"' :: (s ++ ['"'])).drop 1 = '"' :: (s ++ ['"']) from rfl]
  have hmunch : nextMunch ('"' :: (s ++ ['"'])) =
      some (some ⟨"string".toList, '"' :: (s ++ ['"']), .vstr (jsUnescapeQuotes s)⟩,
            s.length + 2) := by
    unfold nextMunch
    rw [show matchKeyword ('"' :: (s ++ ['"'])) = none from rfl,
        show matchName ('"' :: (s ++ ['"'])) = none from rfl,
        matchStr_closed s h]
  rw [scan_munch_tok hmunch]
  have e4 : ('"' :: (s ++ ['"'])).drop (s.length + 2) = [] := by
    show (s ++ ['"']).drop (s.length + 1) = []
    apply List.drop_eq_nil_of_le
    simp
  rw [e4]
  rfl

/-- C7 counterexample: a `note` line with a trailing brace-delimited structured
payload does not return a `Note` at all — the scanner has no rule for the
opening brace, the thrown error is caught, and `parseLine` returns no fact. -/
theorem c7_note_payload_counterexample :
    parseLine "note \"hi\" \x7b\"time\":5\x7d".toList 0 = none := rfl

/-- C7 amended: a payload-less `note "<text>"` line parses to a `Note` whose
text has its escaped quotes resolved by the lexer, and that text is the
Note's only content — no timestamp and no line number are carried; a trailing
brace payload instead makes the whole line yield no fact. -/
theorem c7_note_amended :
    (∀ s : List Char, (∀ c ∈ s, notCRLF c = true) →
      parseLine (noteLine s) 0 = some (.note ⟨jsUnescapeQuotes s⟩)) ∧
    parseLine "note \"say \\\"hi\\\"\"".toList 0 =
      some (.note ⟨"say \"hi\"".toList⟩) ∧
    parseLine "note \"hi\" \x7b\"time\":5\x7d".toList 0 = none := by
  refine ⟨?_, rfl, rfl⟩
  intro s h
  unfold parseLine
  rw [scan_noteLine s h]
  rfl

theorem c7_note_amended_witness :
    parseLine (noteLine "hi".toList) 0 = some (.note ⟨"hi".toList⟩) :=
  c7_note_amended.1 "hi".toList (by decide)

/-! ### Helper lemmas: cursor-relative views of the token matcher, and the
structure-expression loop on abstract paths -/

theorem drop_cons_lt {tokens : List Token} {i : Nat} {x : Token} {xs : List Token}
    (h : tokens.drop i = x :: xs) : i < tokens.length := by
  have hl := congrArg List.length h
  simp only [List.length_drop, List.length_cons] at hl
  omega

theorem drop_add_of_drop {tokens l : List Token} {i : Nat}
    (h : tokens.drop i = l) (k : Nat) : tokens.drop (i + k) = l.drop k := by
  rw [← List.drop_drop, h]

theorem length_of_drop {tokens l : List Token} {i : Nat}
    (h : tokens.drop i = l) (hi : i ≤ tokens.length) :
    tokens.length = i + l.length := by
  have hl := congrArg List.length h
  simp only [List.length_drop] at hl
  omega

theorem matchTokens_drop_match {σ : Type _} (i : Nat) (tokens l : List Token)
    (hdrop : tokens.drop i = l) (hi : i ≤ tokens.length)
    (kinds : List (List Char)) (s : σ) (f : List Token → σ → σ × Option Bool)
    (hlen : kinds.length ≤ l.length) (hck : checkKindsList l kinds = true) :
    matchTokens i tokens kinds s f =
      (true,
       if (f (l.take kinds.length) s).2 == some false then i else i + kinds.length,
       (f (l.take kinds.length) s).1) := by
  have hL := length_of_drop hdrop hi
  have h1 : ¬ tokens.length < i + kinds.length := by omega
  have h2 : checkKinds tokens i kinds = true := by
    rw [checkKinds_eq_list, hdrop]; exact hck
  have hsl : jsSlice i (i + kinds.length) tokens = l.take kinds.length := by
    simp [jsSlice, hdrop]
  rw [matchTokens_match _ _ _ _ _ h1 h2, hsl]

theorem matchTokens_drop_nomatch {σ : Type _} (i : Nat) (tokens l : List Token)
    (hdrop : tokens.drop i = l)
    (kinds : List (List Char)) (s : σ) (f : List Token → σ → σ × Option Bool)
    (h : checkKindsList l kinds = false ∨ l.length < kinds.length) :
    matchTokens i tokens kinds s f = (false, i, s) := by
  by_cases hs : tokens.length < i + kinds.length
  · exact matchTokens_short _ _ _ _ _ hs
  · refine matchTokens_nomatch _ _ _ _ _ hs ?_
    rw [checkKinds_eq_list, hdrop]
    rcases h with h | h
    · exact h
    · exfalso
      have hl := congrArg List.length hdrop
      simp only [List.length_drop] at hl
      omega

theorem pathTokens_cons (sg : List Char × Option Nat) (rest : List (List Char × Option Nat))
    (hne : rest ≠ []) :
    pathTokens (sg :: rest) = segTokens sg ++ dotTok :: pathTokens rest := by
  cases rest with
  | nil => exact absurd rfl hne
  | cons b bs => rfl

theorem segs_le_pathTokens_length :
    ∀ segs : List (List Char × Option Nat), segs.length ≤ (pathTokens segs).length := by
  intro segs
  induction segs with
  | nil => simp [pathTokens]
  | cons sg rest ih =>
    cases rest with
    | nil => cases sg.2 <;> simp [pathTokens, segTokens]
    | cons b bs =>
      rw [pathTokens_cons _ _ (by simp)]
      simp only [List.length_append, List.length_cons]
      have : 1 ≤ (segTokens sg).length := by
        cases sg.2 <;> simp [segTokens]
      simp only [List.length_cons] at ih ⊢
      omega

theorem step_name {tokens : List Token} {i : Nat} {nm : List Char} {T : List Token}
    (hd : tokens.drop i = nameTok nm :: T) (hi : i ≤ tokens.length) (expr : List Token) :
    matchTokens i tokens ["name".toList] expr
      (fun matched s => (s ++ [matched.getD 0 eofToken], none)) =
      (true, i + 1, expr ++ [nameTok nm]) := by
  have h := matchTokens_drop_match i tokens _ hd hi ["name".toList] expr
    (fun matched s => (s ++ [matched.getD 0 eofToken], none)) (by simp) (by simp [checkKindsList, kindMatches, nameTok, dotTok, osbTok, csbTok, colonTok, numTok, eofToken, kwTok, addrTok, arrowTok, eventTok, List.isPrefixOf])
  simpa using h

theorem step_dot {tokens : List Token} {i : Nat} {T : List Token}
    (hd : tokens.drop i = dotTok :: T) (hi : i ≤ tokens.length) :
    matchTokens i tokens ["dot".toList] () (fun _ s => (s, none)) = (true, i + 1, ()) := by
  have h := matchTokens_drop_match i tokens _ hd hi ["dot".toList] ()
    (fun _ s => (s, none)) (by simp) (by simp [checkKindsList, kindMatches, nameTok, dotTok, osbTok, csbTok, colonTok, numTok, eofToken, kwTok, addrTok, arrowTok, eventTok, List.isPrefixOf])
  simpa using h

theorem step_bracket {tokens : List Token} {i : Nat} {k : Nat} {T : List Token}
    (hd : tokens.drop i = osbTok :: numTok k :: csbTok :: T) (hi : i ≤ tokens.length)
    (expr : List Token) :
    matchTokens i tokens
      ["open-square-bracket".toList, "number".toList, "close-square-bracket".toList] expr
      (fun matched s => (s ++ [matched.getD 1 eofToken], none)) =
      (true, i + 3, expr ++ [numTok k]) := by
  have h := matchTokens_drop_match i tokens _ hd hi
    ["open-square-bracket".toList, "number".toList, "close-square-bracket".toList] expr
    (fun matched s => (s ++ [matched.getD 1 eofToken], none)) (by simp) (by simp [checkKindsList, kindMatches, nameTok, dotTok, osbTok, csbTok, colonTok, numTok, eofToken, kwTok, addrTok, arrowTok, eventTok, List.isPrefixOf])
  simpa using h

theorem step_colon_peek {tokens : List Token} {i : Nat} {T : List Token}
    (hd : tokens.drop i = colonTok :: T) (hi : i ≤ tokens.length) :
    matchTokens i tokens ["colon".toList] () (fun _ s => (s, some false)) =
      (true, i, ()) := by
  have h := matchTokens_drop_match i tokens _ hd hi ["colon".toList] ()
    (fun _ s => (s, some false)) (by simp) (by simp [checkKindsList, kindMatches, nameTok, dotTok, osbTok, csbTok, colonTok, numTok, eofToken, kwTok, addrTok, arrowTok, eventTok, List.isPrefixOf])
  simpa using h

theorem step_eof {tokens : List Token} {i : Nat} {T : List Token}
    (hd : tokens.drop i = eofToken :: T) (hi : i ≤ tokens.length) :
    matchTokens i tokens ["EOF".toList] () (fun _ s => (s, none)) = (true, i + 1, ()) := by
  have h := matchTokens_drop_match i tokens _ hd hi ["EOF".toList] ()
    (fun _ s => (s, none)) (by simp) (by simp [checkKindsList, kindMatches, nameTok, dotTok, osbTok, csbTok, colonTok, numTok, eofToken, kwTok, addrTok, arrowTok, eventTok, List.isPrefixOf])
  simpa using h

theorem step_fail_head {σ : Type _} {tokens : List Token} {i : Nat} {t : Token}
    {T : List Token} (hd : tokens.drop i = t :: T) (kind : List Char)
    (kinds : List (List Char)) (hk : kindMatches kind t = false) (s : σ)
    (f : List Token → σ → σ × Option Bool) :
    matchTokens i tokens (kind :: kinds) s f = (false, i, s) :=
  matchTokens_drop_nomatch _ _ _ hd _ _ _ (Or.inl (by simp [hk]))

theorem step_fail_empty {σ : Type _} {tokens : List Token} {i : Nat}
    (hd : tokens.drop i = []) (kind : List Char) (kinds : List (List Char)) (s : σ)
    (f : List Token → σ → σ × Option Bool) :
    matchTokens i tokens (kind :: kinds) s f = (false, i, s) :=
  matchTokens_drop_nomatch _ _ _ hd _ _ _ (Or.inr (by simp))

theorem instLoop_path_colon :
    ∀ (segs : List (List Char × Option Nat)), segs ≠ [] →
    ∀ (tokens : List Token) (i : Nat) (expr after : List Token) (fuel : Nat),
      tokens.drop i = pathTokens segs ++ colonTok :: after →
      i ≤ tokens.length →
      segs.length < fuel →
      instLoop fuel tokens i expr =
        some (expr ++ exprTokens segs, i + (pathTokens segs).length) := by
  intro segs
  induction segs with
  | nil => intro h; exact absurd rfl h
  | cons sg rest ih =>
    intro _ tokens i expr after fuel hdrop hi hfuel
    obtain ⟨f, rfl⟩ : ∃ f, fuel = f + 1 := ⟨fuel - 1, by omega⟩
    obtain ⟨nm, idxo⟩ := sg
    rw [instLoop_succ]
    cases rest with
    | nil =>
      cases idxo with
      | none =>
        have hd0 : tokens.drop i = nameTok nm :: colonTok :: after := by
          simpa [pathTokens, segTokens] using hdrop
        have hL := length_of_drop hd0 hi
        simp only [List.length_cons, List.length_append] at hL
        have hd1 : tokens.drop (i + 1) = colonTok :: after := by
          simpa using drop_add_of_drop hd0 1
        have hlt := drop_cons_lt hd0
        have hfd : matchTokens (i + 1) tokens ["dot".toList] () (fun _ s => (s, none)) =
            (false, i + 1, ()) :=
          step_fail_head hd1 "dot".toList [] rfl _ _
        have hfb : matchTokens (i + 1) tokens
            ["open-square-bracket".toList, "number".toList, "close-square-bracket".toList]
            (expr ++ [nameTok nm])
            (fun matched s => (s ++ [matched.getD 1 eofToken], none)) =
            (false, i + 1, expr ++ [nameTok nm]) :=
          step_fail_head hd1 "open-square-bracket".toList
            ["number".toList, "close-square-bracket".toList] rfl _ _
        have hcp := step_colon_peek hd1 (by omega)
        simp only [if_pos hlt, step_name hd0 hi expr, hfd, hfb, hcp]
        simp [pathTokens, segTokens, exprTokens]
      | some k =>
        have hd0 : tokens.drop i =
            nameTok nm :: osbTok :: numTok k :: csbTok :: colonTok :: after := by
          simpa [pathTokens, segTokens] using hdrop
        have hL := length_of_drop hd0 hi
        simp only [List.length_cons, List.length_append] at hL
        have hd1 : tokens.drop (i + 1) = osbTok :: numTok k :: csbTok :: colonTok :: after := by
          simpa using drop_add_of_drop hd0 1
        have hd4 : tokens.drop (i + 1 + 3) = colonTok :: after := by
          rw [show i + 1 + 3 = i + 4 from by omega]
          simpa using drop_add_of_drop hd0 4
        have hlt := drop_cons_lt hd0
        have hfd1 : matchTokens (i + 1) tokens ["dot".toList] () (fun _ s => (s, none)) =
            (false, i + 1, ()) :=
          step_fail_head hd1 "dot".toList [] rfl _ _
        have hfd2 : matchTokens (i + 1 + 3) tokens ["dot".toList] () (fun _ s => (s, none)) =
            (false, i + 1 + 3, ()) :=
          step_fail_head hd4 "dot".toList [] rfl _ _
        have hcp := step_colon_peek hd4 (by omega)
        simp only [if_pos hlt, step_name hd0 hi expr, hfd1,
              step_bracket hd1 (by omega) (expr ++ [nameTok nm]), hfd2, hcp]
        simp [pathTokens, segTokens, exprTokens]
    | cons b bs =>
      have hne : (b :: bs : List (List Char × Option Nat)) ≠ [] := by simp
      have hpc : pathTokens ((nm, idxo) :: b :: bs) =
          segTokens (nm, idxo) ++ dotTok :: pathTokens (b :: bs) :=
        pathTokens_cons _ _ (by simp)
      cases idxo with
      | none =>
        have hd0 : tokens.drop i =
            nameTok nm :: dotTok :: (pathTokens (b :: bs) ++ colonTok :: after) := by
          simpa [hpc, segTokens, List.append_assoc] using hdrop
        have hL := length_of_drop hd0 hi
        simp only [List.length_cons, List.length_append] at hL
        have hd1 : tokens.drop (i + 1) =
            dotTok :: (pathTokens (b :: bs) ++ colonTok :: after) := by
          simpa using drop_add_of_drop hd0 1
        have hd2 : tokens.drop (i + 1 + 1) =
            pathTokens (b :: bs) ++ colonTok :: after := by
          rw [show i + 1 + 1 = i + 2 from by omega]
          simpa using drop_add_of_drop hd0 2
        have hlt := drop_cons_lt hd0
        have hrec := ih hne tokens (i + 1 + 1) (expr ++ [nameTok nm]) after f hd2
          (by omega) (by simp only [List.length_cons] at hfuel ⊢; omega)
        have harith : i + 1 + 1 + (pathTokens (b :: bs)).length =
            i + (pathTokens ((nm, none) :: b :: bs)).length := by
          simp [hpc, segTokens]; omega
        simp only [if_pos hlt, step_name hd0 hi expr, step_dot hd1 (by omega), hrec]
        simp [hpc, segTokens, exprTokens, harith]
      | some k =>
        have hd0 : tokens.drop i =
            nameTok nm :: osbTok :: numTok k :: csbTok :: dotTok ::
              (pathTokens (b :: bs) ++ colonTok :: after) := by
          simpa [hpc, segTokens, List.append_assoc] using hdrop
        have hL := length_of_drop hd0 hi
        simp only [List.length_cons, List.length_append] at hL
        have hd1 : tokens.drop (i + 1) =
            osbTok :: numTok k :: csbTok :: dotTok ::
              (pathTokens (b :: bs) ++ colonTok :: after) := by
          simpa using drop_add_of_drop hd0 1
        have hd4 : tokens.drop (i + 1 + 3) =
            dotTok :: (pathTokens (b :: bs) ++ colonTok :: after) := by
          rw [show i + 1 + 3 = i + 4 from by omega]
          simpa using drop_add_of_drop hd0 4
        have hd5 : tokens.drop (i + 1 + 3 + 1) =
            pathTokens (b :: bs) ++ colonTok :: after := by
          rw [show i + 1 + 3 + 1 = i + 5 from by omega]
          simpa using drop_add_of_drop hd0 5
        have hlt := drop_cons_lt hd0
        have hfd1 : matchTokens (i + 1) tokens ["dot".toList] () (fun _ s => (s, none)) =
            (false, i + 1, ()) :=
          step_fail_head hd1 "dot".toList [] rfl _ _
        have hrec := ih hne tokens (i + 1 + 3 + 1) (expr ++ [nameTok nm] ++ [numTok k])
          after f hd5 (by omega) (by simp only [List.length_cons] at hfuel ⊢; omega)
        have harith : i + 1 + 3 + 1 + (pathTokens (b :: bs)).length =
            i + (pathTokens ((nm, some k) :: b :: bs)).length := by
          simp [hpc, segTokens]; omega
        simp only [if_pos hlt, step_name hd0 hi expr, hfd1,
              step_bracket hd1 (by omega) (expr ++ [nameTok nm]),
              step_dot hd4 (by omega), hrec]
        simp [hpc, segTokens, exprTokens, harith]

theorem instLoop_path_eof :
    ∀ (segs : List (List Char × Option Nat)), segs ≠ [] →
    ∀ (tokens : List Token) (i : Nat) (expr : List Token) (fuel : Nat),
      tokens.drop i = pathTokens segs ++ [eofToken] →
      i ≤ tokens.length →
      segs.length < fuel →
      instLoop fuel tokens i expr =
        some (expr ++ exprTokens segs, i + (pathTokens segs).length + 1) := by
  intro segs
  induction segs with
  | nil => intro h; exact absurd rfl h
  | cons sg rest ih =>
    intro _ tokens i expr fuel hdrop hi hfuel
    obtain ⟨f, rfl⟩ : ∃ f, fuel = f + 1 := ⟨fuel - 1, by omega⟩
    obtain ⟨nm, idxo⟩ := sg
    rw [instLoop_succ]
    cases rest with
    | nil =>
      cases idxo with
      | none =>
        have hd0 : tokens.drop i = nameTok nm :: eofToken :: [] := by
          simpa [pathTokens, segTokens] using hdrop
        have hL := length_of_drop hd0 hi
        simp only [List.length_cons, List.length_append] at hL
        have hd1 : tokens.drop (i + 1) = eofToken :: [] := by
          simpa using drop_add_of_drop hd0 1
        have hlt := drop_cons_lt hd0
        have hfd : matchTokens (i + 1) tokens ["dot".toList] () (fun _ s => (s, none)) =
            (false, i + 1, ()) :=
          step_fail_head hd1 "dot".toList [] rfl _ _
        have hfb : matchTokens (i + 1) tokens
            ["open-square-bracket".toList, "number".toList, "close-square-bracket".toList]
            (expr ++ [nameTok nm])
            (fun matched s => (s ++ [matched.getD 1 eofToken], none)) =
            (false, i + 1, expr ++ [nameTok nm]) :=
          step_fail_head hd1 "open-square-bracket".toList
            ["number".toList, "close-square-bracket".toList] rfl _ _
        have hfc : matchTokens (i + 1) tokens ["colon".toList] ()
            (fun _ s => (s, some false)) = (false, i + 1, ()) :=
          step_fail_head hd1 "colon".toList [] rfl _ _
        have he := step_eof hd1 (by omega)
        simp only [if_pos hlt, step_name hd0 hi expr, hfd, hfb, hfc, he]
        simp [pathTokens, segTokens, exprTokens]
      | some k =>
        have hd0 : tokens.drop i =
            nameTok nm :: osbTok :: numTok k :: csbTok :: eofToken :: [] := by
          simpa [pathTokens, segTokens] using hdrop
        have hL := length_of_drop hd0 hi
        simp only [List.length_cons, List.length_append] at hL
        have hd1 : tokens.drop (i + 1) = osbTok :: numTok k :: csbTok :: eofToken :: [] := by
          simpa using drop_add_of_drop hd0 1
        have hd4 : tokens.drop (i + 1 + 3) = eofToken :: [] := by
          rw [show i + 1 + 3 = i + 4 from by omega]
          simpa using drop_add_of_drop hd0 4
        have hlt := drop_cons_lt hd0
        have hfd1 : matchTokens (i + 1) tokens ["dot".toList] () (fun _ s => (s, none)) =
            (false, i + 1, ()) :=
          step_fail_head hd1 "dot".toList [] rfl _ _
        have hfd2 : matchTokens (i + 1 + 3) tokens ["dot".toList] () (fun _ s => (s, none)) =
            (false, i + 1 + 3, ()) :=
          step_fail_head hd4 "dot".toList [] rfl _ _
        have hfc : matchTokens (i + 1 + 3) tokens ["colon".toList] ()
            (fun _ s => (s, some false)) = (false, i + 1 + 3, ()) :=
          step_fail_head hd4 "colon".toList [] rfl _ _
        have he := step_eof hd4 (by omega)
        simp only [if_pos hlt, step_name hd0 hi expr, hfd1,
              step_bracket hd1 (by omega) (expr ++ [nameTok nm]), hfd2, hfc, he]
        simp [pathTokens, segTokens, exprTokens]
    | cons b bs =>
      have hne : (b :: bs : List (List Char × Option Nat)) ≠ [] := by simp
      have hpc : pathTokens ((nm, idxo) :: b :: bs) =
          segTokens (nm, idxo) ++ dotTok :: pathTokens (b :: bs) :=
        pathTokens_cons _ _ (by simp)
      cases idxo with
      | none =>
        have hd0 : tokens.drop i =
            nameTok nm :: dotTok :: (pathTokens (b :: bs) ++ [eofToken]) := by
          simpa [hpc, segTokens, List.append_assoc] using hdrop
        have hL := length_of_drop hd0 hi
        simp only [List.length_cons, List.length_append] at hL
        have hd1 : tokens.drop (i + 1) =
            dotTok :: (pathTokens (b :: bs) ++ [eofToken]) := by
          simpa using drop_add_of_drop hd0 1
        have hd2 : tokens.drop (i + 1 + 1) =
            pathTokens (b :: bs) ++ [eofToken] := by
          rw [show i + 1 + 1 = i + 2 from by omega]
          simpa using drop_add_of_drop hd0 2
        have hlt := drop_cons_lt hd0
        have hrec := ih hne tokens (i + 1 + 1) (expr ++ [nameTok nm]) f hd2
          (by omega) (by simp only [List.length_cons] at hfuel ⊢; omega)
        have harith : i + 1 + 1 + (pathTokens (b :: bs)).length + 1 =
            i + (pathTokens ((nm, none) :: b :: bs)).length + 1 := by
          simp [hpc, segTokens]; omega
        simp only [if_pos hlt, step_name hd0 hi expr, step_dot hd1 (by omega), hrec]
        simp [hpc, segTokens, exprTokens, harith]
      | some k =>
        have hd0 : tokens.drop i =
            nameTok nm :: osbTok :: numTok k :: csbTok :: dotTok ::
              (pathTokens (b :: bs) ++ [eofToken]) := by
          simpa [hpc, segTokens, List.append_assoc] using hdrop
        have hL := length_of_drop hd0 hi
        simp only [List.length_cons, List.length_append] at hL
        have hd1 : tokens.drop (i + 1) =
            osbTok :: numTok k :: csbTok :: dotTok ::
              (pathTokens (b :: bs) ++ [eofToken]) := by
          simpa using drop_add_of_drop hd0 1
        have hd4 : tokens.drop (i + 1 + 3) =
            dotTok :: (pathTokens (b :: bs) ++ [eofToken]) := by
          rw [show i + 1 + 3 = i + 4 from by omega]
          simpa using drop_add_of_drop hd0 4
        have hd5 : tokens.drop (i + 1 + 3 + 1) =
            pathTokens (b :: bs) ++ [eofToken] := by
          rw [show i + 1 + 3 + 1 = i + 5 from by omega]
          simpa using drop_add_of_drop hd0 5
        have hlt := drop_cons_lt hd0
        have hfd1 : matchTokens (i + 1) tokens ["dot".toList] () (fun _ s => (s, none)) =
            (false, i + 1, ()) :=
          step_fail_head hd1 "dot".toList [] rfl _ _
        have hrec := ih hne tokens (i + 1 + 3 + 1) (expr ++ [nameTok nm] ++ [numTok k])
          f hd5 (by omega) (by simp only [List.length_cons] at hfuel ⊢; omega)
        have harith : i + 1 + 3 + 1 + (pathTokens (b :: bs)).length + 1 =
            i + (pathTokens ((nm, some k) :: b :: bs)).length + 1 := by
          simp [hpc, segTokens]; omega
        simp only [if_pos hlt, step_name hd0 hi expr, hfd1,
              step_bracket hd1 (by omega) (expr ++ [nameTok nm]),
              step_dot hd4 (by omega), hrec]
        simp [hpc, segTokens, exprTokens, harith]

theorem jsNumberToString_small {n : Nat} (h : n < 2 ^ 53) :
    jsNumberToString n = Nat.toDigits 10 n := by
  simp only [jsNumberToString]
  rw [if_pos h]

theorem structureExpr_foldl_cont :
    ∀ (segs : List (List Char × Option Nat)), (∀ sg ∈ segs, ∀ k, sg.2 = some k → k < 2 ^ 53) →
    ∀ (acc : List Char), acc ≠ [] →
    List.foldl
      (fun result token =>
        match token.value with
        | .vnum n => result ++ '[' :: jsNumberToString n ++ [']']
        | .vinf => result ++ '[' :: "Infinity".toList ++ [']']
        | .vstr _ => (if result.length > 0 then result ++ ['.'] else result) ++ token.text)
      acc (exprTokens segs) = acc ++ renderCont segs := by
  intro segs
  induction segs with
  | nil => intro _ acc _; simp [exprTokens, renderCont]
  | cons sg rest ih =>
    intro hb acc hacc
    obtain ⟨nm, idxo⟩ := sg
    have hbr : ∀ sg ∈ rest, ∀ k, sg.2 = some k → k < 2 ^ 53 := fun sg hs k hk =>
      hb sg (by simp [hs]) k hk
    have hlen : 0 < acc.length := by
      cases acc with
      | nil => exact absurd rfl hacc
      | cons a as => simp
    cases idxo with
    | none =>
      have h1 := ih hbr (acc ++ '.' :: nm) (by simp)
      simp only [exprTokens, List.cons_append, List.nil_append, List.foldl_cons, nameTok]
      simpa [hlen, List.append_assoc, renderCont, idxRender] using h1
    | some k =>
      have hk : k < 2 ^ 53 := hb (nm, some k) (by simp) k rfl
      have h1 := ih hbr (acc ++ '.' :: (nm ++ '[' :: Nat.toDigits 10 k ++ [']'])) (by simp)
      simp only [exprTokens, List.cons_append, List.nil_append, List.foldl_cons,
        nameTok, numTok, jsNumberToString_small hk]
      simpa [hlen, List.append_assoc, renderCont, idxRender] using h1

theorem structureExpr_renders_path (segs : List (List Char × Option Nat))
    (hne : segs ≠ []) (hnm : ∀ sg ∈ segs, sg.1 ≠ [])
    (hb : ∀ sg ∈ segs, ∀ k, sg.2 = some k → k < 2 ^ 53) :
    structureExprToString (exprTokens segs) = renderPath segs := by
  cases segs with
  | nil => exact absurd rfl hne
  | cons sg rest =>
    obtain ⟨nm, idxo⟩ := sg
    have hn : nm ≠ [] := hnm (nm, idxo) (by simp)
    have hbr : ∀ sg ∈ rest, ∀ k, sg.2 = some k → k < 2 ^ 53 := fun sg hs k hk =>
      hb sg (by simp [hs]) k hk
    cases idxo with
    | none =>
      have h1 := structureExpr_foldl_cont rest hbr nm hn
      simp only [structureExprToString, exprTokens, List.cons_append, List.nil_append,
        List.foldl_cons, nameTok]
      simpa [renderPath, idxRender] using h1
    | some k =>
      have hk : k < 2 ^ 53 := hb (nm, some k) (by simp) k rfl
      have h1 := structureExpr_foldl_cont rest hbr (nm ++ '[' :: Nat.toDigits 10 k ++ [']'])
        (by simp)
      simp only [structureExprToString, exprTokens, List.cons_append, List.nil_append,
        List.foldl_cons, nameTok, numTok, jsNumberToString_small hk]
      simpa [renderPath, idxRender, List.append_assoc] using h1

theorem step_header (addr : List Char) (T : List Token) :
    matchTokens 0 (kwTok "instance".toList :: addrTok addr :: T)
      ["kw:instance".toList, "address".toList] (none : Option Token)
      (fun matched _s => (some (matched.getD 1 eofToken), none)) =
      (true, 2, some (addrTok addr)) := by
  have h := matchTokens_drop_match 0 (kwTok "instance".toList :: addrTok addr :: T)
    (kwTok "instance".toList :: addrTok addr :: T) rfl (by simp)
    ["kw:instance".toList, "address".toList] (none : Option Token)
    (fun matched _s => (some (matched.getD 1 eofToken), none))
    (by simp) (by simp [checkKindsList, kindMatches, nameTok, dotTok, osbTok, csbTok, colonTok, numTok, eofToken, kwTok, addrTok, arrowTok, eventTok, List.isPrefixOf])
  simpa using h

theorem step_dyn_match {tokens : List Token} {i : Nat} {ty : List Char} {T : List Token}
    (hd : tokens.drop i = colonTok :: nameTok ty :: T) (hi : i ≤ tokens.length) :
    matchTokens i tokens ["colon".toList, "name".toList] (none : Option Token)
      (fun matched _s => (some (matched.getD 1 eofToken), none)) =
      (true, i + 2, some (nameTok ty)) := by
  have h := matchTokens_drop_match i tokens _ hd hi ["colon".toList, "name".toList]
    (none : Option Token) (fun matched _s => (some (matched.getD 1 eofToken), none))
    (by simp) (by simp [checkKindsList, kindMatches, nameTok, dotTok, osbTok, csbTok, colonTok, numTok, eofToken, kwTok, addrTok, arrowTok, eventTok, List.isPrefixOf])
  simpa using h

set_option maxRecDepth 100000 in
/-- C5, counterexample: `parseInt` stores an IEEE-754 double, so the
well-formed line `instance 0x1 x[9007199254740993]` (index `2^53 + 1`) parses
to a structure expression rendering `x[9007199254740992]` — the index rounds
half-to-even to `2^53` — and the claimed exact reproduction of the original
path text fails. -/
theorem c5_roundtrip_counterexample :
    ∃ d, parseLine "instance 0x1 x[9007199254740993]".toList 0 = some (.inst d) ∧
      structureExprToString d.structureExpr = "x[9007199254740992]".toList ∧
      structureExprToString d.structureExpr ≠ "x[9007199254740993]".toList :=
  ⟨_, rfl, rfl, by decide⟩

/-- C5, amended: on paths whose indexes stay below `2^53` — where the double
is exact and prints as its own digits — the instance production and
`structureExprToString` are mutually inverse: for every address and every
nonempty path of nonempty segment names, with or without a trailing
`: <name>` dynamic type, `isInstanceDecl` collects exactly the path's name
and index tokens, and rendering that `structureExpr` reproduces the original
path text; concretely, `instance 0x1 x[0].y` renders back to `x[0].y` and
`instance 0x1 a.b[2].c: TypeX` to `a.b[2].c` with dynamic type `TypeX`. -/
theorem c5_instance_roundtrip_amended :
    (∀ (addr ty : List Char) (segs : List (List Char × Option Nat)),
      segs ≠ [] → (∀ sg ∈ segs, sg.1 ≠ []) →
      (∀ sg ∈ segs, ∀ k, sg.2 = some k → k < 2 ^ 53) →
      isInstanceDecl (kwTok "instance".toList :: addrTok addr ::
          (pathTokens segs ++ [eofToken])) =
        some ⟨addrTok addr, exprTokens segs, none⟩ ∧
      isInstanceDecl (kwTok "instance".toList :: addrTok addr ::
          (pathTokens segs ++ colonTok :: nameTok ty :: [eofToken])) =
        some ⟨addrTok addr, exprTokens segs, some (nameTok ty)⟩ ∧
      structureExprToString (exprTokens segs) = renderPath segs) ∧
    (∃ d, parseLine "instance 0x1 x[0].y".toList 0 = some (.inst d) ∧
      structureExprToString d.structureExpr = "x[0].y".toList ∧
      d.dynamicType = none) ∧
    (∃ d, parseLine "instance 0x1 a.b[2].c: TypeX".toList 0 = some (.inst d) ∧
      structureExprToString d.structureExpr = "a.b[2].c".toList ∧
      d.dynamicType.map Token.text = some "TypeX".toList) := by
  refine ⟨?_, ⟨_, rfl, rfl, rfl⟩, ⟨_, rfl, rfl, rfl⟩⟩
  intro addr ty segs hsegs hnm hb
  have hsp := segs_le_pathTokens_length segs
  refine ⟨?_, ?_, structureExpr_renders_path segs hsegs hnm hb⟩
  · have hlen : (kwTok "instance".toList :: addrTok addr ::
        (pathTokens segs ++ [eofToken])).length = (pathTokens segs).length + 3 := by
      simp
    have hd2 : (kwTok "instance".toList :: addrTok addr ::
        (pathTokens segs ++ [eofToken])).drop 2 = pathTokens segs ++ [eofToken] := rfl
    have hloop := instLoop_path_eof segs hsegs
      (kwTok "instance".toList :: addrTok addr :: (pathTokens segs ++ [eofToken])) 2 []
      ((kwTok "instance".toList :: addrTok addr ::
        (pathTokens segs ++ [eofToken])).length + 1)
      hd2 (by omega) (by omega)
    have hdyn := matchTokens_drop_nomatch (2 + (pathTokens segs).length + 1)
      (kwTok "instance".toList :: addrTok addr :: (pathTokens segs ++ [eofToken])) []
      (by rw [show 2 + (pathTokens segs).length + 1 = (kwTok "instance".toList ::
            addrTok addr :: (pathTokens segs ++ [eofToken])).length from by omega]
          exact List.drop_length _)
      ["colon".toList, "name".toList] (none : Option Token)
      (fun matched _s => (some (matched.getD 1 eofToken), none)) (Or.inr (by simp))
    simp only [isInstanceDecl, step_header, hloop, hdyn]
    simp
  · have hlen : (kwTok "instance".toList :: addrTok addr ::
        (pathTokens segs ++ colonTok :: nameTok ty :: [eofToken])).length =
        (pathTokens segs).length + 5 := by
      simp
    have hd2 : (kwTok "instance".toList :: addrTok addr ::
        (pathTokens segs ++ colonTok :: nameTok ty :: [eofToken])).drop 2 =
        pathTokens segs ++ colonTok :: nameTok ty :: [eofToken] := rfl
    have hloop := instLoop_path_colon segs hsegs
      (kwTok "instance".toList :: addrTok addr ::
        (pathTokens segs ++ colonTok :: nameTok ty :: [eofToken])) 2 []
      (nameTok ty :: [eofToken])
      ((kwTok "instance".toList :: addrTok addr ::
        (pathTokens segs ++ colonTok :: nameTok ty :: [eofToken])).length + 1)
      hd2 (by omega) (by omega)
    have hdc : (kwTok "instance".toList :: addrTok addr ::
        (pathTokens segs ++ colonTok :: nameTok ty :: [eofToken])).drop
        (2 + (pathTokens segs).length) = colonTok :: nameTok ty :: [eofToken] := by
      have h := drop_add_of_drop hd2 (pathTokens segs).length
      simpa [List.drop_left] using h
    have hdyn := step_dyn_match hdc (by omega)
    simp only [isInstanceDecl, step_header, hloop, hdyn]
    simp

/-- Witness: the general round-trip clause of the amended C5 at the concrete
path `x[0].y` with address `0x1`. -/
theorem c5_instance_roundtrip_amended_witness :
    isInstanceDecl (kwTok "instance".toList :: addrTok "0x1".toList ::
        (pathTokens [("x".toList, some 0), ("y".toList, none)] ++ [eofToken])) =
      some ⟨addrTok "0x1".toList,
            exprTokens [("x".toList, some 0), ("y".toList, none)], none⟩ ∧
    structureExprToString (exprTokens [("x".toList, some 0), ("y".toList, none)]) =
      renderPath [("x".toList, some 0), ("y".toList, none)] :=
  ⟨(c5_instance_roundtrip_amended.1 "0x1".toList "T".toList
      [("x".toList, some 0), ("y".toList, none)] (by decide) (by decide) (by decide)).1,
   (c5_instance_roundtrip_amended.1 "0x1".toList "T".toList
      [("x".toList, some 0), ("y".toList, none)] (by decide) (by decide) (by decide)).2.2⟩

theorem filter_eq_nil_of_all {α : Type _} (p : α → Bool) :
    ∀ l : List α, (∀ x ∈ l, p x = false) → l.filter p = [] := by
  intro l
  induction l with
  | nil => intro _; rfl
  | cons a as ih =>
    intro h
    simp only [List.filter_cons, h a (by simp)]
    exact ih (fun x hx => h x (by simp [hx]))

theorem filter_eq_self_of_all {α : Type _} (p : α → Bool) :
    ∀ l : List α, (∀ x ∈ l, p x = true) → l.filter p = l := by
  intro l
  induction l with
  | nil => intro _; rfl
  | cons a as ih =>
    intro h
    simp only [List.filter_cons, h a (by simp)]
    rw [ih (fun x hx => h x (by simp [hx]))]
    simp

theorem jsSlice_concat {α : Type _} (a b c : Nat) (h1 : a ≤ b) (h2 : b ≤ c) (l : List α) :
    jsSlice a b l ++ jsSlice b c l = jsSlice a c l := by
  simp only [jsSlice]
  have hc : c - a = (b - a) + (c - b) := by omega
  have hd : (l.drop a).drop (b - a) = l.drop b := by
    rw [List.drop_drop]
    congr 1
    omega
  rw [hc, List.take_add, hd]

theorem jsSlice_map {α β : Type _} (f : α → β) (s e : Nat) (l : List α) :
    (jsSlice s e l).map f = jsSlice s e (l.map f) := by
  simp [jsSlice, List.map_take, List.map_drop]

theorem mem_of_mem_jsSlice {α : Type _} {x : α} {s e : Nat} {l : List α}
    (h : x ∈ jsSlice s e l) : x ∈ l := by
  simp only [jsSlice] at h
  exact List.mem_of_mem_drop (List.mem_of_mem_take h)

theorem mem_insertSorted {x y : SortMessage} :
    ∀ {l : List SortMessage}, x ∈ insertSorted y l → x = y ∨ x ∈ l := by
  intro l
  induction l with
  | nil =>
    intro h
    simp only [insertSorted, List.mem_singleton] at h
    exact Or.inl h
  | cons z zs ih =>
    intro h
    simp only [insertSorted] at h
    split at h
    · rcases List.mem_cons.mp h with h1 | h1
      · exact Or.inl h1
      · exact Or.inr h1
    · rcases List.mem_cons.mp h with h1 | h1
      · exact Or.inr (by simp [h1])
      · rcases ih h1 with h2 | h2
        · exact Or.inl h2
        · exact Or.inr (by simp [h2])

theorem mem_foldl_insertSorted {x : SortMessage} :
    ∀ (l acc : List SortMessage),
      x ∈ l.foldl (fun a y => insertSorted y a) acc → x ∈ acc ∨ x ∈ l := by
  intro l
  induction l with
  | nil => intro acc h; exact Or.inl h
  | cons y ys ih =>
    intro acc h
    rcases ih (insertSorted y acc) h with h1 | h1
    · rcases mem_insertSorted h1 with h2 | h2
      · exact Or.inr (by simp [h2])
      · exact Or.inl h2
    · exact Or.inr (by simp [h1])

theorem mem_stableSortMessages {x : SortMessage} {l : List SortMessage}
    (h : x ∈ stableSortMessages l) : x ∈ l := by
  rcases mem_foldl_insertSorted l [] h with h1 | h1
  · simp at h1
  · exact h1

theorem parseLine_lineNumber_irrel (line : List Char) (i : Nat) :
    parseLine line i = parseLine line 0 := rfl

theorem collectMessages_all_message :
    ∀ (lines : List (List Char)) (i : Nat) (buf : List SortMessage),
      collectMessages i lines = some buf → ∀ m ∈ buf, isMessageLine m.msg = true := by
  intro lines
  induction lines with
  | nil =>
    intro i buf h m hm
    simp only [collectMessages, Option.some.injEq] at h
    subst h
    simp at hm
  | cons line rest ih =>
    intro i buf h m hm
    cases hp : parseLine line i with
    | none =>
      simp only [collectMessages, hp] at h
      cases hr : collectMessages (i + 1) rest with
      | none => rw [hr] at h; simp at h
      | some ms =>
        rw [hr] at h
        simp only [List.nil_append, Option.some.injEq] at h
        subst h
        exact ih (i + 1) ms hr m hm
    | some f =>
      cases f with
      | inst d =>
        simp only [collectMessages, hp] at h
        cases hr : collectMessages (i + 1) rest with
        | none => rw [hr] at h; simp at h
        | some ms =>
          rw [hr] at h
          simp only [List.nil_append, Option.some.injEq] at h
          subst h
          exact ih (i + 1) ms hr m hm
      | note n =>
        simp only [collectMessages, hp] at h
        cases hr : collectMessages (i + 1) rest with
        | none => rw [hr] at h; simp at h
        | some ms =>
          rw [hr] at h
          simp only [List.nil_append, Option.some.injEq] at h
          subst h
          exact ih (i + 1) ms hr m hm
      | msg mo =>
        cases ht : time2ReceiveOf mo.data with
        | none =>
          simp only [collectMessages, hp, ht] at h
          simp at h
        | some tso =>
          cases tso with
          | none =>
            simp only [collectMessages, hp, ht] at h
            cases hr : collectMessages (i + 1) rest with
            | none => rw [hr] at h; simp at h
            | some ms =>
              rw [hr] at h
              simp only [List.nil_append, Option.some.injEq] at h
              subst h
              exact ih (i + 1) ms hr m hm
          | some ts =>
            simp only [collectMessages, hp, ht] at h
            cases hr : collectMessages (i + 1) rest with
            | none => rw [hr] at h; simp at h
            | some ms =>
              rw [hr] at h
              simp only [List.singleton_append, Option.some.injEq] at h
              subst h
              rcases List.mem_cons.mp hm with h1 | h1
              · have hp0 : parseLine line 0 = some (.msg mo) := by
                  rw [← parseLine_lineNumber_irrel line i]
                  exact hp
                subst h1
                simp [isMessageLine, hp0]
              · exact ih (i + 1) ms hr m h1

theorem findMatchGo_ge {line : List Char} :
    ∀ (l : List SortMessage) (idx j : Nat), findMatchGo line l idx = some j → idx ≤ j := by
  intro l
  induction l with
  | nil => intro idx j h; simp [findMatchGo] at h
  | cons m rest ih =>
    intro idx j h
    simp only [findMatchGo] at h
    split at h
    · simp only [Option.some.injEq] at h
      omega
    · have := ih (idx + 1) j h
      omega

theorem replaceLoop_nonmessage_filter (sorted : List SortMessage)
    (hall : ∀ m ∈ sorted, isMessageLine m.msg = true) :
    ∀ (rest : List (List Char)) (start : Nat),
      (replaceLoop sorted rest start).filter (fun l => !isMessageLine l) =
        rest.filter (fun l => !isMessageLine l) := by
  intro rest
  induction rest with
  | nil => intro start; simp [replaceLoop]
  | cons line rs ih =>
    intro start
    by_cases hm : isMessageLine line
    · cases hf : findMatchFrom sorted start line with
      | some idx =>
        simp only [replaceLoop, if_pos hm, hf]
        rw [List.filter_append]
        have hnil : ((jsSlice start (idx + 1) sorted).map (·.msg)).filter
            (fun l => !isMessageLine l) = [] := by
          apply filter_eq_nil_of_all
          intro x hx
          rcases List.mem_map.mp hx with ⟨mm, hmm, rfl⟩
          simp [hall mm (mem_of_mem_jsSlice hmm)]
        rw [hnil, ih]
        simp [hm]
      | none =>
        simp only [replaceLoop, if_pos hm, hf, ih]
        simp [hm]
    · simp only [replaceLoop, if_neg hm]
      simp [hm, ih]

theorem replaceLoop_message_filter (sorted : List SortMessage)
    (hall : ∀ m ∈ sorted, isMessageLine m.msg = true) :
    ∀ (rest : List (List Char)) (start : Nat),
      ∃ k, start ≤ k ∧
        (replaceLoop sorted rest start).filter (fun l => isMessageLine l) =
          jsSlice start k (sorted.map (·.msg)) := by
  intro rest
  induction rest with
  | nil =>
    intro start
    exact ⟨start, Nat.le_refl _, by simp [replaceLoop, jsSlice]⟩
  | cons line rs ih =>
    intro start
    by_cases hm : isMessageLine line
    · cases hf : findMatchFrom sorted start line with
      | some idx =>
        obtain ⟨k, hk1, hk2⟩ := ih (idx + 1)
        have hge : start ≤ idx := by
          simp only [findMatchFrom] at hf
          exact findMatchGo_ge _ _ _ hf
        refine ⟨k, by omega, ?_⟩
        simp only [replaceLoop, if_pos hm, hf]
        rw [List.filter_append]
        have hself : ((jsSlice start (idx + 1) sorted).map (·.msg)).filter
            (fun l => isMessageLine l) = (jsSlice start (idx + 1) sorted).map (·.msg) := by
          apply filter_eq_self_of_all
          intro x hx
          rcases List.mem_map.mp hx with ⟨mm, hmm, rfl⟩
          exact hall mm (mem_of_mem_jsSlice hmm)
        rw [hself, hk2, jsSlice_map]
        exact jsSlice_concat start (idx + 1) k (by omega) hk1 _
      | none =>
        obtain ⟨k, hk1, hk2⟩ := ih start
        refine ⟨k, hk1, ?_⟩
        simp only [replaceLoop, if_pos hm, hf]
        exact hk2
    · obtain ⟨k, hk1, hk2⟩ := ih start
      refine ⟨k, hk1, ?_⟩
      simp only [replaceLoop, if_neg hm]
      simp [hm, hk2]

/-- C2, counterexample: in the file `[message ts=200, instance line,
message ts=100]` the sorter moves the non-message instance line from position
1 to position 2, and the ts=100 message crosses that non-message boundary into
the first block — refuting "non-message lines never move" and the per-block
locality of the reordering. -/
theorem c2_locality_counterexample :
    sortOnReceiveTime
        ["0x1 A -> 0x2 B: e(\x7b\"time2_receive\":200\x7d)".toList,
         "instance 0x2 a".toList,
         "0x3 C -> 0x4 D: e(\x7b\"time2_receive\":100\x7d)".toList] =
      ["0x3 C -> 0x4 D: e(\x7b\"time2_receive\":100\x7d)".toList,
       "0x1 A -> 0x2 B: e(\x7b\"time2_receive\":200\x7d)".toList,
       "instance 0x2 a".toList] ∧
    isMessageLine "instance 0x2 a".toList = false := ⟨rfl, rfl⟩

/-- C2, amended: when the first pass succeeds with a nonempty buffer, the
second pass keeps the non-message lines as exactly the same subsequence (their
relative order is preserved, though their positions may shift), while the
message lines of the output form an initial run of the whole file's buffered
messages sorted globally by timestamp — message lines are reordered across
non-message boundaries, not per contiguous block, and unmatched message lines
are dropped. -/
theorem c2_sorted_globally (lines : List (List Char)) (buf : List SortMessage)
    (hc : collectMessages 0 lines = some buf) (hne : buf ≠ []) :
    (sortOnReceiveTime lines).filter (fun l => !isMessageLine l) =
      lines.filter (fun l => !isMessageLine l) ∧
    ∃ k, (sortOnReceiveTime lines).filter (fun l => isMessageLine l) =
      ((stableSortMessages buf).map (·.msg)).take k := by
  have hall : ∀ m ∈ stableSortMessages buf, isMessageLine m.msg = true := fun m hm =>
    collectMessages_all_message lines 0 buf hc m (mem_stableSortMessages hm)
  have hs : sortOnReceiveTime lines = replaceLoop (stableSortMessages buf) lines 0 := by
    simp only [sortOnReceiveTime, hc]
    rw [if_neg (by simp [List.isEmpty_iff, hne])]
  rw [hs]
  constructor
  · exact replaceLoop_nonmessage_filter _ hall lines 0
  · obtain ⟨k, _, hk2⟩ := replaceLoop_message_filter _ hall lines 0
    exact ⟨k, by simpa [jsSlice] using hk2⟩

/-- Witness: the amended C2 statement at the three-line counterexample file,
whose buffer holds the two timestamped messages. -/
theorem c2_sorted_globally_witness :
    (sortOnReceiveTime
        ["0x1 A -> 0x2 B: e(\x7b\"time2_receive\":200\x7d)".toList,
         "instance 0x2 a".toList,
         "0x3 C -> 0x4 D: e(\x7b\"time2_receive\":100\x7d)".toList]).filter
        (fun l => !isMessageLine l) =
      (["0x1 A -> 0x2 B: e(\x7b\"time2_receive\":200\x7d)".toList,
        "instance 0x2 a".toList,
        "0x3 C -> 0x4 D: e(\x7b\"time2_receive\":100\x7d)".toList]).filter
        (fun l => !isMessageLine l) ∧
    ∃ k, (sortOnReceiveTime
        ["0x1 A -> 0x2 B: e(\x7b\"time2_receive\":200\x7d)".toList,
         "instance 0x2 a".toList,
         "0x3 C -> 0x4 D: e(\x7b\"time2_receive\":100\x7d)".toList]).filter
        (fun l => isMessageLine l) =
      ((stableSortMessages
          [⟨Json.num (mkRat 200 1),
            "0x1 A -> 0x2 B: e(\x7b\"time2_receive\":200\x7d)".toList⟩,
           ⟨Json.num (mkRat 100 1),
            "0x3 C -> 0x4 D: e(\x7b\"time2_receive\":100\x7d)".toList⟩]).map (·.msg)).take k :=
  c2_sorted_globally
    ["0x1 A -> 0x2 B: e(\x7b\"time2_receive\":200\x7d)".toList,
     "instance 0x2 a".toList,
     "0x3 C -> 0x4 D: e(\x7b\"time2_receive\":100\x7d)".toList]
    [⟨Json.num (mkRat 200 1),
      "0x1 A -> 0x2 B: e(\x7b\"time2_receive\":200\x7d)".toList⟩,
     ⟨Json.num (mkRat 100 1),
      "0x3 C -> 0x4 D: e(\x7b\"time2_receive\":100\x7d)".toList⟩]
    rfl (by simp)

end ArtTrace
